import Mathlib

/-!
Verification of the adaptive hardware control subsystem of the
framework-control service (Rust), as a shallow embedding in Lean 4.

Sources embedded here:
* `src/service/src/tasks/fan_curve.rs` — temperature parsing, curve
  interpolation, hysteresis target acceptance, rate limiting, the curve-mode
  tick of the fan loop;
* `src/service/src/tasks/power.rs`   — the power-loop `tick`;
* `src/service/src/tasks/battery.rs` — the battery-loop tick body;
* `src/service/src/state.rs`         — the resolver loop bodies;
* `src/service/src/utils/global_cache.rs` — the single-flight TTL cache,
  as a small interleaving transition system.

Modelling conventions: `u32`/`u8` become `ℕ` (saturating `u32` arithmetic is
noted where it occurs and coincides with the `ℕ` form on the values reached);
`i32` becomes `ℤ` (the parser enforces the `i32` range explicitly);
`f64`/`f32` arithmetic on the small in-range values used by these routines is
modelled exactly by `ℚ`, with Rust's `round` (half away from zero) spelled
out; `Instant` differences become `ℕ` seconds with truncated subtraction
(`saturating_duration_since`); fallible externals become `Option` inputs.
-/

namespace FrameworkControl

/-! ### String helpers mirroring the Rust `str` methods used by
`parse_temperature` (fan_curve.rs lines 189-218).  Strings are processed as
their character lists; all inputs of interest are ASCII, where Rust byte
indices and character indices agree. -/

/-- `str::lines` helper: split a character list at every occurrence of `c`,
keeping empty pieces (as `str::split` does). -/
def splitOnChar (c : Char) : List Char → List (List Char)
  | [] => [[]]
  | x :: xs =>
    match splitOnChar c xs with
    | [] => [[x]]
    | w :: ws => if x = c then [] :: w :: ws else (x :: w) :: ws

/-- Strip one trailing carriage return, as `str::lines` does per line. -/
def stripCR (l : List Char) : List Char :=
  if l.getLast? = some '\r' then l.dropLast else l

/-- Rust `str::lines`: split on `'\n'`, drop the empty piece produced by a
trailing newline, strip a trailing `'\r'` from each line. -/
def rustLines (s : String) : List (List Char) :=
  if s.data = [] then []
  else
    let parts := splitOnChar '\n' s.data
    let parts := if s.data.getLast? = some '\n' then parts.dropLast else parts
    parts.map stripCR

/-- Rust `str::trim` (whitespace from both ends). -/
def trimChars (l : List Char) : List Char :=
  ((l.dropWhile Char.isWhitespace).reverse.dropWhile Char.isWhitespace).reverse

/-- Rust `str::contains(pat)` for a literal pattern: `pat` occurs as a
contiguous substring. -/
def containsSub (pat l : List Char) : Bool :=
  (List.range (l.length + 1)).any (fun i => pat.isPrefixOf (l.drop i))

/-- Rust `str::rfind(pat)`: the start index of the last occurrence of the
literal pattern `pat`, if any. -/
def rfindIdx (pat l : List Char) : Option ℕ :=
  ((List.range (l.length + 1)).filter (fun i => pat.isPrefixOf (l.drop i))).getLast?

/-- Split at whitespace like Rust `str::split_whitespace` (non-empty words
only). -/
def whitespaceWords : List Char → List (List Char)
  | [] => [[]]
  | x :: xs =>
    match whitespaceWords xs with
    | [] => [[x]]
    | w :: ws => if x.isWhitespace then [] :: w :: ws else (x :: w) :: ws

/-- `split_whitespace().last()`. -/
def lastWord (l : List Char) : Option (List Char) :=
  ((whitespaceWords l).filter (fun w => w ≠ [])).getLast?

/-- Rust `i32::from_str`: optional sign, one or more ASCII digits, whole
string consumed, value within the `i32` range (overflow is an error). -/
def parseI32 (w : List Char) : Option ℤ :=
  match w with
  | [] => none
  | c :: rest =>
    let sign : ℤ := if c = '-' then -1 else 1
    let digits := if c = '-' ∨ c = '+' then rest else w
    if digits = [] then none
    else if digits.all Char.isDigit then
      let n : ℕ := digits.foldl (fun a d => a * 10 + (d.toNat - '0'.toNat)) 0
      let v : ℤ := sign * n
      if -(2 ^ 31) ≤ v ∧ v ≤ 2 ^ 31 - 1 then some v else none
    else none

/-- Body of the line loop of `parse_temperature`: on one raw line, trim it; if
it contains `sensor ++ ":"`, look for the last `" C"`, take the last
whitespace-separated word before it and parse it as an `i32`; any failure
moves on to the next line (`none`). -/
def lineResult (sensor : List Char) (line : List Char) : Option ℤ :=
  let trimmed := trimChars line
  if containsSub (sensor ++ [':']) trimmed then
    match rfindIdx [' ', 'C'] trimmed with
    | some cpos =>
      match lastWord (trimmed.take cpos) with
      | some w => parseI32 w
      | none => none
    | none => none
  else none

/-- The line scan of `parse_temperature` for one sensor name: first line that
yields a temperature. -/
def findSensorTemp (output : String) (sensor : String) : Option ℤ :=
  (rustLines output).findSome? (lineResult sensor.data)

/-- `parse_temperature` (fan_curve.rs lines 189-218).  The Rust function
recurses once: when the requested sensor yields nothing and is not `"APU"`, it
retries with `"APU"`; the retry's own fallback branch is then dead, so the
recursion is unfolded here to a single fallback. -/
def parse_temperature (output : String) (sensor : String) : Option ℤ :=
  match findSensorTemp output sensor with
  | some t => some t
  | none => if sensor = "APU" then none else findSensorTemp output "APU"

/-! ### Curve interpolation (`calculate_duty_from_curve`, fan_curve.rs lines
222-254).  The `f64` arithmetic is modelled exactly over `ℚ`; `f64::round`
(half away from zero) on the non-negative values produced here is
`⌊q + 1/2⌋`, and `as u32` on that non-negative integer is `Int.toNat`. -/

/-- `duty.round() as u32` for the non-negative `duty` values of the curve. -/
def qround (q : ℚ) : ℕ := (⌊q + 1 / 2⌋).toNat

/-- The `for window in full_curve.windows(2)` loop: walk consecutive pairs;
before the first point return its duty; inside a window interpolate linearly
(vertical windows return the right endpoint); past every window return the
fall-through `100`. -/
def walk (t : ℚ) : List (ℕ × ℕ) → ℕ
  | p1 :: p2 :: rest =>
    if t ≤ (p1.1 : ℚ) then p1.2
    else if t ≤ (p2.1 : ℚ) then
      if (p2.1 : ℚ) = (p1.1 : ℚ) then p2.2
      else qround ((p1.2 : ℚ) + (t - (p1.1 : ℚ)) / ((p2.1 : ℚ) - (p1.1 : ℚ)) * ((p2.2 : ℚ) - (p1.2 : ℚ)))
    else walk t (p2 :: rest)
  | _ => 100

/-- `calculate_duty_from_curve`: prepend the `[0,0]` anchor, append the
`[100,100]` anchor, and walk the windows. -/
def calculate_duty_from_curve (temp : ℤ) (points : List (ℕ × ℕ)) : ℕ :=
  walk (temp : ℚ) ((0, 0) :: points ++ [(100, 100)])

/-- `apply_rate_limit` (fan_curve.rs lines 257-263).  `saturating_add` then
`min target` equals plain `min` over `ℕ` because `target` is a `u32`;
`saturating_sub` is `ℕ` subtraction. -/
def apply_rate_limit (current target max_change : ℕ) : ℕ :=
  if target > current then min (current + max_change) target
  else max (current - max_change) target

/-! ### The curve-mode tick of the fan loop (fan_curve.rs lines 73-167). -/

/-- The fan curve configuration fields used by the loop (`CurveConfig`). -/
structure CurveCfg where
  points : List (ℕ × ℕ)
  hysteresis_c : ℕ
  rate_limit_pct_per_step : ℕ
  sensor : String

/-- The loop-local fan state (`last_duty`, `active_target`,
`transition_start_temp`); `last_mode` is passed to the tick as a flag. -/
structure FanSt where
  last_duty : Option ℕ
  active_target : Option ℕ
  transition_start_temp : ℤ
deriving DecidableEq, Repr

/-- Target acceptance with hysteresis (fan_curve.rs lines 104-129): accept
any increase immediately; accept a decrease only if hysteresis is disabled,
the temperature has risen back to or above the anchor, or it has fallen by at
least the hysteresis band below the anchor; with no active target accept
whatever the curve says.  Returns the new `(active_target,
transition_start_temp)`. -/
def acceptStep (hysteresis_c : ℕ) (active : Option ℕ) (anchor : ℤ)
    (temp : ℤ) (curveTarget : ℕ) : Option ℕ × ℤ :=
  match active with
  | none => (some curveTarget, temp)
  | some cur =>
    if curveTarget ≠ cur then
      if curveTarget > cur then (some curveTarget, temp)
      else if hysteresis_c = 0 ∨ temp ≥ anchor ∨ temp ≤ anchor - (hysteresis_c : ℤ) then
        (some curveTarget, temp)
      else (some cur, anchor)
    else (some cur, anchor)

/-- The rate-limit selection of the duty to set (fan_curve.rs lines 136-141):
with a previous duty and a step limit below 100 the step is rate limited,
otherwise the target is taken directly. -/
def nextDutyStep (last_duty : Option ℕ) (tgt rate_limit : ℕ) : ℕ :=
  match last_duty with
  | some prev => if rate_limit < 100 then apply_rate_limit prev tgt rate_limit else tgt
  | none => tgt

/-- One curve-mode tick (fan_curve.rs lines 84-165), with the curve config
present.  `wasCurve` is `last_mode == Some(Curve)` on entry; `thermalOut` is
the thermal query's result (`none` models a failed read, which skips the
tick); `setOk` tells whether the hardware duty write succeeds.  Returns the
new state and the duty sent to `set_fan_duty`, if any. -/
def curveTick (cfg : CurveCfg) (wasCurve : Bool) (st : FanSt)
    (thermalOut : Option String) (setOk : Bool) : FanSt × Option ℕ :=
  match thermalOut.bind (fun out => parse_temperature out cfg.sensor) with
  | none => (st, none)
  | some temp =>
    let st1 := if wasCurve then st
               else { st with transition_start_temp := temp, active_target := none }
    let curve_target := calculate_duty_from_curve temp cfg.points
    let acc := acceptStep cfg.hysteresis_c st1.active_target st1.transition_start_temp temp curve_target
    let st2 := { st1 with active_target := acc.1, transition_start_temp := acc.2 }
    match acc.1 with
    | some tgt =>
      let next := nextDutyStep st2.last_duty tgt cfg.rate_limit_pct_per_step
      if st2.last_duty ≠ some next then
        (if setOk then { st2 with last_duty := some next } else st2, some next)
      else (st2, none)
    | none => (st2, none)

/-! ### The power loop tick (power.rs lines 11-211).  Time is in seconds
(`ℕ`); `Instant::saturating_duration_since` is truncated subtraction.  The
external results of one tick (handle presence, `ft.power()`, `ryz.info()`,
write success) are inputs. -/

/-- `SettingU32` (types.rs). -/
structure SettingU32 where
  enabled : Bool
  value : ℕ
deriving DecidableEq, Repr

/-- `PowerProfile` (types.rs). -/
structure PowerProfile where
  tdp_watts : Option SettingU32
  thermal_limit_c : Option SettingU32
deriving DecidableEq, Repr

/-- `PowerConfig` (types.rs). -/
structure PowerConfig where
  ac : Option PowerProfile
  battery : Option PowerProfile
deriving DecidableEq, Repr

/-- The parsed fields of `ryzenadj --info` used by the tick. -/
structure RyzInfo where
  tdp_watts : Option ℕ
  thermal_limit_c : Option ℕ
deriving DecidableEq, Repr

/-- The loop-local state threaded through `tick` by `run` (power.rs lines
220-229). -/
structure PowerSt where
  last_tdp : Option ℕ
  last_thermal : Option ℕ
  observed_tdp : Option ℕ
  last_tdp_change_at : ℕ
  last_tdp_apply_at : Option ℕ
  last_info_poll_at : Option ℕ
  observed_thermal : Option ℕ
  last_thermal_reapply_at : Option ℕ
deriving DecidableEq, Repr

/-- The per-tick external inputs of the power `tick`. -/
structure PowerInputs where
  ryzPresent : Bool
  ftPresent : Bool
  /-- `ft.power()`: `none` is `Err`; `some acOpt` is `Ok` with the optional
  `ac_present` field. -/
  powerResult : Option (Option Bool)
  cfgPower : PowerConfig
  /-- `ryz.info()`: `none` is `Err`. -/
  infoResult : Option RyzInfo
  setTdpOk : Bool
  setThermalOk : Bool
  now : ℕ
deriving DecidableEq, Repr

/-- A hardware write performed by the power tick. -/
inductive PowerWrite where
  | setTdp (w : ℕ)
  | setThermal (c : ℕ)
deriving DecidableEq, Repr

/-- The constants of power.rs lines 57-62. -/
def TDP_TOLERANCE_W : ℕ := 2
def QUIET_WINDOW_SECS : ℕ := 60
def REAPPLY_COOLDOWN_SECS : ℕ := 120
def INFO_POLL_SECS : ℕ := 5
def THERMAL_REAPPLY_COOLDOWN_SECS : ℕ := 300
def THERMAL_BOOT_DELAY_SECS : ℕ := 60

/-- The periodic `ryzenadj --info` poll (power.rs lines 69-96): refresh
`observed_tdp` (time-stamping changes of at least 1 W) and
`observed_thermal`, then stamp `last_info_poll_at`. -/
def infoPoll (inp : PowerInputs) (st : PowerSt) : PowerSt :=
  let should_poll : Bool := match st.last_info_poll_at with
    | none => true
    | some t => decide (inp.now - t ≥ INFO_POLL_SECS)
  if should_poll then
    let stA := match inp.infoResult with
      | some info =>
        let stT := match info.tdp_watts with
          | some cur =>
            match st.observed_tdp with
            | none => { st with observed_tdp := some cur, last_tdp_change_at := inp.now }
            | some prev =>
              if Nat.dist prev cur ≥ 1 then
                { st with observed_tdp := some cur, last_tdp_change_at := inp.now }
              else st
          | none => st
        match info.thermal_limit_c with
        | some cur => { stT with observed_thermal := some cur }
        | none => stT
      | none => st
    { stA with last_info_poll_at := some inp.now }
  else st

/-- Whether a profile field is enabled:
`field.as_ref().map(|s| s.enabled).unwrap_or(false)`. -/
def fieldEnabled (f : Option SettingU32) : Bool :=
  (f.map SettingU32.enabled).getD false

/-- `field.as_ref().map(|s| s.value).filter(|&v| v > 0)`. -/
def fieldValue (f : Option SettingU32) : Option ℕ :=
  (f.map SettingU32.value).bind (fun v => if v > 0 then some v else none)

/-- `diff_needs_reapply` (power.rs lines 122-125): the independently polled
observed TDP drifted outside the tolerance band from the target. -/
def tdpDriftCond (st : PowerSt) (target_watts : ℕ) : Bool :=
  (st.observed_tdp.map (fun cur => decide (Nat.dist cur target_watts > TDP_TOLERANCE_W))).getD false

/-- `quiet_enough` (power.rs lines 126-127): no observed TDP change for the
quiet window. -/
def tdpQuietCond (now : ℕ) (st : PowerSt) : Bool :=
  decide (now - st.last_tdp_change_at ≥ QUIET_WINDOW_SECS)

/-- `past_cooldown` (power.rs lines 128-134). -/
def tdpCooldownCond (now : ℕ) (st : PowerSt) : Bool :=
  match st.last_tdp_apply_at with
  | none => true
  | some t => decide (now - t ≥ REAPPLY_COOLDOWN_SECS)

/-- `drift` for the thermal limit (power.rs lines 182-184): any difference
between the observed and target values. -/
def thermalDriftCond (st : PowerSt) (celsius : ℕ) : Bool :=
  (st.observed_thermal.map (fun obs => decide (obs ≠ celsius))).getD false

/-- `cooldown` for the thermal limit (power.rs lines 185-191). -/
def thermalCooldownCond (now : ℕ) (st : PowerSt) : Bool :=
  match st.last_thermal_reapply_at with
  | none => true
  | some t => decide (now - t ≥ THERMAL_REAPPLY_COOLDOWN_SECS)

/-- The TDP block of the power tick (power.rs lines 99-162): apply on a
changed target; otherwise reapply only when the observed value drifted
outside the tolerance, the drift has been quiet for the quiet window, and the
reapply cooldown has passed; when the field is disabled, clear `last_tdp`. -/
def tdpApply (inp : PowerInputs) (profile : PowerProfile) (st : PowerSt) :
    PowerSt × List PowerWrite :=
  if fieldEnabled profile.tdp_watts then
    match fieldValue profile.tdp_watts with
    | some target_watts =>
      if st.last_tdp ≠ some target_watts then
        if inp.setTdpOk then
          ({ st with last_tdp := some target_watts, last_tdp_apply_at := some inp.now },
           [PowerWrite.setTdp target_watts])
        else (st, [PowerWrite.setTdp target_watts])
      else
        if tdpDriftCond st target_watts && tdpQuietCond inp.now st && tdpCooldownCond inp.now st then
          if inp.setTdpOk then
            ({ st with last_tdp_apply_at := some inp.now }, [PowerWrite.setTdp target_watts])
          else (st, [PowerWrite.setTdp target_watts])
        else (st, [])
    | none => (st, [])
  else
    if st.last_tdp.isSome then ({ st with last_tdp := none }, []) else (st, [])

/-- The thermal-limit block of the power tick (power.rs lines 165-210): after
the boot delay, apply when the target changed, or when the observed value
differs and the thermal reapply cooldown has passed; when the field is
disabled, clear `last_thermal`. -/
def thermalApply (inp : PowerInputs) (startup : ℕ) (profile : PowerProfile) (st : PowerSt) :
    PowerSt × List PowerWrite :=
  if fieldEnabled profile.thermal_limit_c then
    if inp.now - startup ≥ THERMAL_BOOT_DELAY_SECS then
      match fieldValue profile.thermal_limit_c with
      | some celsius =>
        let target_changed : Bool := decide (st.last_thermal ≠ some celsius)
        if target_changed || (thermalDriftCond st celsius && thermalCooldownCond inp.now st) then
          if inp.setThermalOk then
            ({ st with last_thermal := some celsius, last_thermal_reapply_at := some inp.now },
             [PowerWrite.setThermal celsius])
          else (st, [PowerWrite.setThermal celsius])
        else (st, [])
      | none => (st, [])
    else (st, [])
  else
    if st.last_thermal.isSome then ({ st with last_thermal := none }, []) else (st, [])

/-- One power-loop `tick` (power.rs lines 11-211): bail out when either
handle is missing, when `ft.power()` fails or reports no `ac_present`, or
when no profile is configured for the present power source; otherwise poll
info, then run the TDP block and the thermal block in that order. -/
def powerTick (inp : PowerInputs) (startup : ℕ) (st : PowerSt) :
    PowerSt × List PowerWrite :=
  if inp.ryzPresent then
    if inp.ftPresent then
      match inp.powerResult with
      | none => (st, [])
      | some acOpt =>
        match acOpt with
        | none => (st, [])
        | some ac_present =>
          match (if ac_present then inp.cfgPower.ac else inp.cfgPower.battery) with
          | none => (st, [])
          | some profile =>
            let st1 := infoPoll inp st
            let r1 := tdpApply inp profile st1
            let r2 := thermalApply inp startup profile r1.1
            (r2.1, r1.2 ++ r2.2)
    else (st, [])
  else (st, [])

/-! ### The battery loop tick body (battery.rs lines 26-104). -/

/-- Rust `f32::round`: round half away from zero, over the exact model `ℚ`. -/
def rustRound (q : ℚ) : ℤ :=
  if q < 0 then -⌊-q + 1 / 2⌋ else ⌊q + 1 / 2⌋

/-- Rust `clamp` on an ordered type: `min (max x lo) hi`. -/
def rclamp {α : Type} [LinearOrder α] (x lo hi : α) : α := min (max x lo) hi

/-- `SettingU8` (types.rs). -/
structure SettingU8 where
  enabled : Bool
  value : ℕ
deriving DecidableEq, Repr

/-- `SettingF32` (types.rs), value modelled in `ℚ`. -/
structure SettingF32 where
  enabled : Bool
  value : ℚ
deriving DecidableEq, Repr

/-- `BatteryConfig` (types.rs). -/
structure BatteryConfig where
  charge_limit_max_pct : Option SettingU8
  charge_rate_c : Option SettingF32
  charge_rate_soc_threshold_pct : Option ℕ
deriving DecidableEq, Repr

/-- The battery loop's local state (battery.rs lines 20-24). -/
structure BatterySt where
  last_charge_limit_pct : Option ℕ
  last_rate_c : Option ℚ
  last_threshold_pct : Option ℕ
  last_charge_apply_at : Option ℕ
  last_rate_apply_at : Option ℕ
deriving DecidableEq, Repr

/-- The constants of battery.rs lines 16-18. -/
def REAPPLY_INTERVAL_SECS : ℕ := 30 * 60
def CL_MIN : ℕ := 25
def CL_MAX : ℕ := 100

/-- A hardware write performed by the battery tick. -/
inductive BatteryWrite where
  | chargeLimit (pct : ℕ)
  | chargeRate (c : ℚ) (threshold : Option ℕ)
deriving DecidableEq, Repr

/-- The desired charge-limit percent (battery.rs lines 35-41): the configured
value clamped to `25..=100` when enabled, the `100` ceiling when disabled. -/
def desiredChargeLimit (s : SettingU8) : ℕ :=
  if s.enabled then rclamp s.value CL_MIN CL_MAX else 100

/-- The desired charge rate (battery.rs lines 67-70): the configured value
when enabled, `1.0` ("no limit") when disabled, snapped to `0.05` steps and
clamped to `0.0..=1.0`. -/
def desiredChargeRate (s : SettingF32) : ℚ :=
  rclamp (((rustRound ((if s.enabled then s.value else 1) * 20) : ℚ)) / 20) 0 1

/-- `need_apply` for the charge limit (battery.rs lines 42-45). -/
def needApplyLimit (st : BatterySt) (desired : ℕ) : Bool :=
  match st.last_charge_limit_pct with
  | none => true
  | some prev => decide (prev ≠ desired)

/-- `past_reapply` for the charge limit (battery.rs lines 46-50). -/
def pastReapplyLimit (now : ℕ) (st : BatterySt) : Bool :=
  match st.last_charge_apply_at with
  | none => true
  | some t => decide (now - t ≥ REAPPLY_INTERVAL_SECS)

/-- `need_apply` for the charge rate (battery.rs lines 72-75). -/
def needApplyRate (st : BatterySt) (desired_c : ℚ) (desired_threshold : Option ℕ) : Bool :=
  match st.last_rate_c, st.last_threshold_pct with
  | some prev_c, prev_t => decide (prev_c ≠ desired_c ∨ prev_t ≠ desired_threshold)
  | none, _ => true

/-- `past_reapply` for the charge rate (battery.rs lines 76-80). -/
def pastReapplyRate (now : ℕ) (st : BatterySt) : Bool :=
  match st.last_rate_apply_at with
  | none => true
  | some t => decide (now - t ≥ REAPPLY_INTERVAL_SECS)

/-- One iteration of the battery loop body (battery.rs lines 26-104), with
the shared-handle read modelled by `ftPresent` and the two CLI call outcomes
by `limitOk`/`rateOk`.  Returns the new state and the writes issued. -/
def batteryTick (cfg : BatteryConfig) (ftPresent : Bool) (now : ℕ)
    (limitOk rateOk : Bool) (st : BatterySt) : BatterySt × List BatteryWrite :=
  if ftPresent then
    let r1 : BatterySt × List BatteryWrite :=
      match cfg.charge_limit_max_pct with
      | some setting =>
        let desired := desiredChargeLimit setting
        if needApplyLimit st desired || pastReapplyLimit now st then
          if limitOk then
            ({ st with last_charge_limit_pct := some desired,
                       last_charge_apply_at := some now },
             [BatteryWrite.chargeLimit desired])
          else (st, [BatteryWrite.chargeLimit desired])
        else (st, [])
      | none => (st, [])
    let st1 := r1.1
    let r2 : BatterySt × List BatteryWrite :=
      match cfg.charge_rate_c with
      | some setting =>
        let desired_c := desiredChargeRate setting
        let desired_threshold := cfg.charge_rate_soc_threshold_pct
        if needApplyRate st1 desired_c desired_threshold || pastReapplyRate now st1 then
          if rateOk then
            ({ st1 with last_rate_c := some desired_c,
                        last_threshold_pct := desired_threshold,
                        last_rate_apply_at := some now },
             [BatteryWrite.chargeRate desired_c desired_threshold])
          else (st1, [BatteryWrite.chargeRate desired_c desired_threshold])
        else (st1, [])
      | none => (st1, [])
    (r2.1, r1.2 ++ r2.2)
  else (st, [])

/-! ### Resolver loop bodies (state.rs lines 98-144).  One cycle of each
resolver, acting on the shared optional handle.  A handle's momentary
liveness (whether `cli.versions()` would succeed) is carried on the handle
itself; the acquisition attempt's outcome is the `acq` input. -/

/-- An external-tool or power-backend handle; `alive` is whether a liveness
probe of it would currently succeed. -/
structure Handle where
  alive : Bool
deriving DecidableEq, Repr

/-- One cycle of `spawn_framework_tool_resolver` (state.rs lines 118-144):
while populated, probe liveness (`cli.versions()`) and clear the handle on
failure; while empty, install the acquisition result if any. -/
def ftResolverStep (cur : Option Handle) (acq : Option Handle) : Option Handle :=
  match cur with
  | some cli => if cli.alive then some cli else none
  | none => acq

/-- One cycle of `spawn_linux_power_resolver` (state.rs lines 98-116): while
empty, install the acquisition result if any; while populated, do nothing at
all (no liveness probe, no clearing).  `spawn_ryzenadj_resolver` (lines
79-96) has the same shape. -/
def linuxPowerResolverStep (cur : Option Handle) (acq : Option Handle) : Option Handle :=
  match cur with
  | some lp => some lp
  | none => acq

/-! ### The single-flight TTL cache (global_cache.rs lines 38-133), for one
key, as an interleaving transition system.  Each atomic section of
`cache_get_or_update` is one step: the success fast path (lines 53-62), the
error fast path (lines 64-73), acquiring the per-key mutex (lines 76-77), the
two post-lock rechecks (lines 80-99), and the factory run with its store and
the lock release (lines 102-132; the guard is held across the factory call
and the store, so this whole section is mutually exclusive per key).  `n`
concurrent callers are threads `Fin n`; the scheduler interleaves their steps
and clock advances arbitrarily.  Cache entries carry the producing caller's
index as payload and the `Instant` they were stored; `ts.elapsed() < ttl` is
`clock - ts < ttl`. -/

/-- Program counter of one caller inside `cache_get_or_update`. -/
inductive CachePc where
  | start      -- about to run the success fast path
  | fastE      -- about to run the negative-cache fast path
  | awaitLock  -- about to lock the per-key mutex
  | recheckS   -- holding the lock, about to recheck the success cache
  | recheckE   -- holding the lock, about to recheck the negative cache
  | runF       -- holding the lock, about to run the factory
  | done
deriving DecidableEq, Repr

/-- Static configuration of one run: the TTL, the `cache_errors` flag and the
(predetermined) success/failure of each caller's factory. -/
structure CacheCfg (n : ℕ) where
  ttl : ℕ
  cacheErrors : Bool
  factoryOk : Fin n → Bool

/-- Shared cache state plus the callers' local states.  `succAt`/`errAt` are
the `values`/`error_values` entries for the key (payload, store time);
`lock` is the per-key mutex owner; `count` counts factory executions;
`results` records each finished caller's `Result` (`true` = `Ok`) and the
payload it received. -/
structure CacheSt (n : ℕ) where
  succAt : Option (ℕ × ℕ)
  errAt : Option (ℕ × ℕ)
  lock : Option (Fin n)
  clock : ℕ
  pcs : Fin n → CachePc
  results : Fin n → Option (Bool × ℕ)
  count : ℕ

/-- `ts.elapsed() < ttl` for an optional entry. -/
def entryFresh (ttl clock : ℕ) : Option (ℕ × ℕ) → Bool
  | some e => decide (clock - e.2 < ttl)
  | none => false

/-- Finish caller `tid` with result `r` (a `return` from the function). -/
def cacheServe {n : ℕ} (s : CacheSt n) (tid : Fin n) (r : Bool × ℕ) : CacheSt n :=
  { s with pcs := Function.update s.pcs tid CachePc.done,
           results := Function.update s.results tid (some r) }

/-- The success fast path (lines 53-62): serve a fresh success entry, else
fall through to the negative-cache fast path. -/
def fastSuccStep {n : ℕ} (cfg : CacheCfg n) (s : CacheSt n) (tid : Fin n) : CacheSt n :=
  match s.succAt with
  | some e =>
    if entryFresh cfg.ttl s.clock (some e) then cacheServe s tid (true, e.1)
    else { s with pcs := Function.update s.pcs tid CachePc.fastE }
  | none => { s with pcs := Function.update s.pcs tid CachePc.fastE }

/-- The negative-cache fast path (lines 64-73): with error caching enabled,
serve a fresh error entry; else fall through to the lock. -/
def fastErrStep {n : ℕ} (cfg : CacheCfg n) (s : CacheSt n) (tid : Fin n) : CacheSt n :=
  if cfg.cacheErrors then
    match s.errAt with
    | some e =>
      if entryFresh cfg.ttl s.clock (some e) then cacheServe s tid (false, e.1)
      else { s with pcs := Function.update s.pcs tid CachePc.awaitLock }
    | none => { s with pcs := Function.update s.pcs tid CachePc.awaitLock }
  else { s with pcs := Function.update s.pcs tid CachePc.awaitLock }

/-- Acquiring the per-key mutex (lines 76-77); enabled only when free. -/
def acquireStep {n : ℕ} (s : CacheSt n) (tid : Fin n) : CacheSt n :=
  { s with lock := some tid, pcs := Function.update s.pcs tid CachePc.recheckS }

/-- The post-lock success recheck (lines 80-89): serve a fresh success entry
(returning releases the guard), else fall through. -/
def recheckSStep {n : ℕ} (cfg : CacheCfg n) (s : CacheSt n) (tid : Fin n) : CacheSt n :=
  match s.succAt with
  | some e =>
    if entryFresh cfg.ttl s.clock (some e) then { cacheServe s tid (true, e.1) with lock := none }
    else { s with pcs := Function.update s.pcs tid CachePc.recheckE }
  | none => { s with pcs := Function.update s.pcs tid CachePc.recheckE }

/-- The post-lock negative recheck (lines 90-99). -/
def recheckEStep {n : ℕ} (cfg : CacheCfg n) (s : CacheSt n) (tid : Fin n) : CacheSt n :=
  if cfg.cacheErrors then
    match s.errAt with
    | some e =>
      if entryFresh cfg.ttl s.clock (some e) then { cacheServe s tid (false, e.1) with lock := none }
      else { s with pcs := Function.update s.pcs tid CachePc.runF }
    | none => { s with pcs := Function.update s.pcs tid CachePc.runF }
  else { s with pcs := Function.update s.pcs tid CachePc.runF }

/-- Running the factory and storing its result (lines 102-132), then
releasing the guard: success replaces the success entry and always clears the
negative entry; failure stores a negative entry and clears the success entry
when error caching is on, and clears both when it is off. -/
def runFactoryStep {n : ℕ} (cfg : CacheCfg n) (s : CacheSt n) (tid : Fin n) : CacheSt n :=
  let base := { s with count := s.count + 1, lock := none,
                       pcs := Function.update s.pcs tid CachePc.done }
  if cfg.factoryOk tid then
    { base with succAt := some (tid.1, s.clock), errAt := none,
                results := Function.update s.results tid (some (true, tid.1)) }
  else if cfg.cacheErrors then
    { base with errAt := some (tid.1, s.clock), succAt := none,
                results := Function.update s.results tid (some (false, tid.1)) }
  else
    { base with errAt := none, succAt := none,
                results := Function.update s.results tid (some (false, tid.1)) }

/-- One interleaving step: any runnable caller moves, or time passes. -/
inductive CacheStep {n : ℕ} (cfg : CacheCfg n) : CacheSt n → CacheSt n → Prop where
  | advance (s : CacheSt n) (d : ℕ) : CacheStep cfg s { s with clock := s.clock + d }
  | fastSucc (s : CacheSt n) (tid : Fin n) (h : s.pcs tid = CachePc.start) :
      CacheStep cfg s (fastSuccStep cfg s tid)
  | fastErr (s : CacheSt n) (tid : Fin n) (h : s.pcs tid = CachePc.fastE) :
      CacheStep cfg s (fastErrStep cfg s tid)
  | acquire (s : CacheSt n) (tid : Fin n) (h : s.pcs tid = CachePc.awaitLock)
      (hl : s.lock = none) : CacheStep cfg s (acquireStep s tid)
  | recheckS (s : CacheSt n) (tid : Fin n) (h : s.pcs tid = CachePc.recheckS) :
      CacheStep cfg s (recheckSStep cfg s tid)
  | recheckE (s : CacheSt n) (tid : Fin n) (h : s.pcs tid = CachePc.recheckE) :
      CacheStep cfg s (recheckEStep cfg s tid)
  | runFactory (s : CacheSt n) (tid : Fin n) (h : s.pcs tid = CachePc.runF) :
      CacheStep cfg s (runFactoryStep cfg s tid)

/-- Reachability by interleaving steps. -/
def CacheReach {n : ℕ} (cfg : CacheCfg n) : CacheSt n → CacheSt n → Prop :=
  Relation.ReflTransGen (CacheStep cfg)

/-- The initial condition of a run: all callers about to enter, no refresh in
flight (mutex free), no executions counted yet.  Pre-existing cache entries
are unconstrained. -/
def CacheInit {n : ℕ} (s : CacheSt n) : Prop :=
  (∀ tid, s.pcs tid = CachePc.start) ∧ s.lock = none ∧ s.count = 0

/-! ### Concrete curve evaluations used by several claims. -/

lemma curve_at_40 : calculate_duty_from_curve 40 [(0, 0), (40, 20), (100, 100)] = 20 := by
  norm_num [calculate_duty_from_curve, walk, qround]
  rfl

lemma curve_at_20 : calculate_duty_from_curve 20 [(0, 0), (40, 20), (100, 100)] = 10 := by
  norm_num [calculate_duty_from_curve, walk, qround]
  rfl

lemma curve_at_87 : calculate_duty_from_curve 87 [(0, 0), (40, 20), (100, 100)] = 83 := by
  norm_num [calculate_duty_from_curve, walk, qround]
  rfl

lemma curve_at_62 : calculate_duty_from_curve 62 [(40, 20), (60, 40), (75, 80)] = 45 := by
  norm_num [calculate_duty_from_curve, walk, qround]
  rfl

/-- C2 counterexample: the claim says the curve through `[0,0]`, `[40,20]`,
`[100,100]` evaluates to `88` at temperature `87`; the code interpolates
between `(40,20)` and `(100,100)` there, `20 + (47/60)·80 = 82.67`, which
rounds to `83`, not `88`. -/
theorem C2_counterexample :
    calculate_duty_from_curve 87 [(0, 0), (40, 20), (100, 100)] ≠ 88 := by
  rw [curve_at_87]
  decide

/-- C2 (amended): curve evaluation for configured points
`[[0,0],[40,20],[100,100]]` (with the implicit `(0,0)`/`(100,100)` anchors)
returns `20` at temperature `40`, `10` at temperature `20`, and `83` (not
`88`) at temperature `87`. -/
theorem C2_curve_exact_values :
    calculate_duty_from_curve 40 [(0, 0), (40, 20), (100, 100)] = 20 ∧
    calculate_duty_from_curve 20 [(0, 0), (40, 20), (100, 100)] = 10 ∧
    calculate_duty_from_curve 87 [(0, 0), (40, 20), (100, 100)] = 83 :=
  ⟨curve_at_40, curve_at_20, curve_at_87⟩

/-- C1 counterexample: on the claim's first-tick scenario (thermal line
`"APU: 62 C"`, points `[[40,20],[60,40],[75,80]]`, hysteresis `2`, rate limit
`100`, no prior state) the tick sets duty `45` — temperature `62` falls
between `(60,40)` and `(75,80)`, giving `40 + (2/15)·40 = 45.33 → 45` — not
the claimed `48`. -/
theorem C1_counterexample :
    (curveTick ⟨[(40, 20), (60, 40), (75, 80)], 2, 100, "APU"⟩ false
        ⟨none, none, 0⟩ (some "APU: 62 C") true).2 = some 45 ∧ (45 : ℕ) ≠ 48 := by
  constructor
  · have h1 : parse_temperature "APU: 62 C" "APU" = some 62 := by decide
    simp only [curveTick, Option.bind, h1, curve_at_62]
    decide
  · decide

/-- C1 (amended): a first curve-mode tick with no prior state, thermal output
`"APU: 62 C"`, points `[[40,20],[60,40],[75,80]]`, hysteresis `2` and rate
limit `100` parses the temperature as `62`, computes and accepts target duty
`45` (interpolated between the `(60,40)` and `(75,80)` points, not `48`
between 40 and 60), and applies that duty to hardware immediately in the same
tick. -/
theorem C1_first_tick_end_to_end :
    parse_temperature "APU: 62 C" "APU" = some 62 ∧
    calculate_duty_from_curve 62 [(40, 20), (60, 40), (75, 80)] = 45 ∧
    curveTick ⟨[(40, 20), (60, 40), (75, 80)], 2, 100, "APU"⟩ false
        ⟨none, none, 0⟩ (some "APU: 62 C") true
      = (⟨some 45, some 45, 62⟩, some 45) := by
  have h1 : parse_temperature "APU: 62 C" "APU" = some 62 := by decide
  refine ⟨h1, curve_at_62, ?_⟩
  simp only [curveTick, Option.bind, h1, curve_at_62]
  decide

/-- C10: for any thermal output and any requested sensor other than `"APU"`,
if no line of the output yields a temperature for that sensor, parsing falls
back to the sensor name `"APU"` — so it returns the APU reading when one is
present and `none` only when the APU line is also absent or unparsable. -/
theorem C10_sensor_fallback (output : String) (sensor : String)
    (hs : sensor ≠ "APU")
    (hnone : ∀ line ∈ rustLines output, lineResult sensor.data line = none) :
    parse_temperature output sensor = findSensorTemp output "APU" := by
  have hfind : findSensorTemp output sensor = none := by
    unfold findSensorTemp
    exact List.findSome?_eq_none_iff.mpr hnone
  unfold parse_temperature
  rw [hfind]
  simp [hs]

/-- Witness for C10 at a concrete input: sensor `"GPU"` is absent, so the APU
line is served. -/
theorem C10_sensor_fallback_witness :
    (("GPU" : String) ≠ "APU") ∧
    (∀ line ∈ rustLines "  APU:  62 C\n", lineResult ("GPU" : String).data line = none) ∧
    parse_temperature "  APU:  62 C\n" "GPU" = findSensorTemp "  APU:  62 C\n" "APU" :=
  ⟨by decide, by decide, C10_sensor_fallback "  APU:  62 C\n" "GPU" (by decide) (by decide)⟩

/-- C4 counterexample: the claim says every shared-handle resolver (the
power-backend one included) probes liveness while populated and clears the
handle on probe failure; but the power-backend resolver cycle leaves a
populated handle untouched even when a liveness probe of it would fail, so
the handle is not cleared. -/
theorem C4_counterexample :
    linuxPowerResolverStep (some ⟨false⟩) none ≠ none := by
  decide

/-- C4 (amended): only the external-tool (framework_tool) resolver probes a
populated handle and clears it on probe failure; the power-backend resolver
never probes nor clears a populated handle and only acquires while empty.
Dependent control loops (power, battery) do skip a tick entirely — no state
change, no hardware write — whenever a handle they need is empty. -/
theorem C4_resolver_and_loop_skip :
    (∀ (h : Handle) (acq : Option Handle), h.alive = false →
        ftResolverStep (some h) acq = none) ∧
    (∀ (h : Handle) (acq : Option Handle), linuxPowerResolverStep (some h) acq = some h) ∧
    (∀ (inp : PowerInputs) (startup : ℕ) (st : PowerSt), inp.ryzPresent = false →
        powerTick inp startup st = (st, [])) ∧
    (∀ (inp : PowerInputs) (startup : ℕ) (st : PowerSt), inp.ftPresent = false →
        powerTick inp startup st = (st, [])) ∧
    (∀ (cfg : BatteryConfig) (now : ℕ) (lOk rOk : Bool) (st : BatterySt),
        batteryTick cfg false now lOk rOk st = (st, [])) := by
  refine ⟨?_, ?_, ?_, ?_, ?_⟩
  · intro h acq hdead
    simp [ftResolverStep, hdead]
  · intro h acq
    simp [linuxPowerResolverStep]
  · intro inp startup st hmiss
    simp [powerTick, hmiss]
  · intro inp startup st hmiss
    simp [powerTick, hmiss]
  · intro cfg now lOk rOk st
    simp [batteryTick]

/-- Witness for C4 (amended) at concrete inputs. -/
theorem C4_resolver_and_loop_skip_witness :
    ftResolverStep (some ⟨false⟩) (some ⟨true⟩) = none ∧
    linuxPowerResolverStep (some ⟨false⟩) (some ⟨true⟩) = some ⟨false⟩ ∧
    batteryTick ⟨none, none, none⟩ false 0 true true
        ⟨none, none, none, none, none⟩ = (⟨none, none, none, none, none⟩, []) :=
  ⟨C4_resolver_and_loop_skip.1 ⟨false⟩ (some ⟨true⟩) rfl,
   C4_resolver_and_loop_skip.2.1 ⟨false⟩ (some ⟨true⟩),
   C4_resolver_and_loop_skip.2.2.2.2 ⟨none, none, none⟩ 0 true true ⟨none, none, none, none, none⟩⟩

/-! ### C5: hysteresis never lowers the accepted target while the
temperature stays within the band. -/

/-- Run the target-acceptance step over a sequence of (temperature,
instantaneous curve duty) observations. -/
def foldAccept (hys : ℕ) (init : Option ℕ × ℤ) (steps : List (ℤ × ℕ)) : Option ℕ × ℤ :=
  steps.foldl (fun s p => acceptStep hys s.1 s.2 p.1 p.2) init

lemma chain_gt_relax {t a : ℤ} {l : List ℤ}
    (h : List.Chain (fun x y : ℤ => x > y) t l) (ha : a > t) :
    List.Chain (fun x y : ℤ => x > y) a l := by
  cases h with
  | nil => exact List.Chain.nil
  | cons hrel hchain => exact List.Chain.cons (lt_trans hrel ha) hchain

/-- Invariant of the acceptance fold: starting from accepted target `d`
anchored at `a`, over strictly decreasing temperatures that all stay strictly
within `hys` of the fixed reference anchor `a0 ≥ a`, the accepted target
remains set and never decreases. -/
lemma foldAccept_no_decrease (hys : ℕ) (hpos : 0 < hys) (a0 : ℤ) :
    ∀ (steps : List (ℤ × ℕ)) (d : ℕ) (a : ℤ),
      a ≤ a0 →
      List.Chain (fun x y : ℤ => x > y) a (steps.map Prod.fst) →
      (∀ p ∈ steps, a0 - (hys : ℤ) < p.1) →
      ∃ d', (foldAccept hys (some d, a) steps).1 = some d' ∧ d ≤ d' := by
  intro steps
  induction steps with
  | nil =>
    intro d a _ _ _
    exact ⟨d, rfl, le_refl d⟩
  | cons p rest ih =>
    intro d a haa0 hchain hband
    obtain ⟨t, c⟩ := p
    rw [List.map_cons, List.chain_cons] at hchain
    obtain ⟨hat, hchain'⟩ := hchain
    have hband_t : a0 - (hys : ℤ) < t := hband (t, c) (List.mem_cons_self _ _)
    have hband' : ∀ q ∈ rest, a0 - (hys : ℤ) < q.1 := fun q hq => hband q (List.mem_cons_of_mem _ hq)
    show ∃ d', (foldAccept hys (acceptStep hys (some d) a t c) rest).1 = some d' ∧ d ≤ d'
    by_cases hcd : c = d
    · have hstep : acceptStep hys (some d) a t c = (some d, a) := by
        simp [acceptStep, hcd]
      rw [hstep]
      exact ih d a haa0 (chain_gt_relax hchain' hat) hband'
    · by_cases hgt : c > d
      · have hstep : acceptStep hys (some d) a t c = (some c, t) := by
          simp [acceptStep, hcd, hgt]
        rw [hstep]
        obtain ⟨d', hd', hcd'⟩ :=
          ih c t (le_trans (le_of_lt hat) haa0) hchain' hband'
        exact ⟨d', hd', le_trans (le_of_lt hgt) hcd'⟩
      · have hconds : ¬(hys = 0 ∨ t ≥ a ∨ t ≤ a - (hys : ℤ)) := by
          push_neg
          omega
        have hstep : acceptStep hys (some d) a t c = (some d, a) := by
          simp [acceptStep, hcd, hgt, hconds]
        rw [hstep]
        exact ih d a haa0 (chain_gt_relax hchain' hat) hband'

/-- C5: with a positive hysteresis band, once a target duty is accepted with
its anchor temperature, then over any subsequent strictly decreasing
temperatures that each stay strictly less than `hysteresis_c` below the
anchor, the active target never decreases; and a strictly lower instantaneous
curve output is accepted only when hysteresis is disabled, the temperature is
back at or above the anchor, or it has fallen at least `hysteresis_c` below
the anchor. -/
theorem C5_hysteresis_no_decrease :
    (∀ (hys d : ℕ) (a0 : ℤ) (steps : List (ℤ × ℕ)),
        0 < hys →
        List.Chain (fun x y : ℤ => x > y) a0 (steps.map Prod.fst) →
        (∀ p ∈ steps, a0 - (hys : ℤ) < p.1) →
        ∃ d', (foldAccept hys (some d, a0) steps).1 = some d' ∧ d ≤ d') ∧
    (∀ (hys cur : ℕ) (anchor temp : ℤ) (c : ℕ),
        c < cur →
        (acceptStep hys (some cur) anchor temp c).1 = some c →
        hys = 0 ∨ temp ≥ anchor ∨ temp ≤ anchor - (hys : ℤ)) := by
  constructor
  · intro hys d a0 steps hpos hchain hband
    exact foldAccept_no_decrease hys hpos a0 steps d a0 (le_refl a0) hchain hband
  · intro hys cur anchor temp c hlt hacc
    by_contra hcond
    have hcd : c ≠ cur := Nat.ne_of_lt hlt
    have hgt : ¬(c > cur) := Nat.not_lt.mpr (Nat.le_of_lt hlt)
    have : (acceptStep hys (some cur) anchor temp c).1 = some cur := by
      simp [acceptStep, hcd, hgt, hcond]
    rw [this] at hacc
    exact hcd (Option.some_injective _ hacc).symm

/-- Witness for C5 at a concrete run: target `40` anchored at `60 °C` with
band `2`; at `59 °C` the curve falls to `30` but the accepted target stays at
least `40`. -/
theorem C5_hysteresis_no_decrease_witness :
    0 < 2 ∧
    List.Chain (fun x y : ℤ => x > y) 60 ([((59 : ℤ), (30 : ℕ))].map Prod.fst) ∧
    (∀ p ∈ [((59 : ℤ), (30 : ℕ))], (60 : ℤ) - (2 : ℕ) < p.1) ∧
    ∃ d', (foldAccept 2 (some 40, 60) [((59 : ℤ), (30 : ℕ))]).1 = some d' ∧ 40 ≤ d' := by
  have hchain : List.Chain (fun x y : ℤ => x > y) 60 ([((59 : ℤ), (30 : ℕ))].map Prod.fst) :=
    List.Chain.cons (by decide) List.Chain.nil
  have hband : ∀ p ∈ [((59 : ℤ), (30 : ℕ))], (60 : ℤ) - (2 : ℕ) < p.1 := by decide
  exact ⟨by decide, hchain, hband,
    C5_hysteresis_no_decrease.1 2 40 60 [((59 : ℤ), (30 : ℕ))] (by decide) hchain hband⟩

/-! ### C6: monotone bounded curves give monotone duties; the rate limiter
bounds the per-tick change. -/

/-- The linear interpolation of `walk` stays between its endpoint duties. -/
lemma interp_bounds {x1 x2 y1 y2 : ℕ} {t : ℚ}
    (h1 : (x1 : ℚ) < t) (h2 : t ≤ (x2 : ℚ)) (hy : y1 ≤ y2) :
    (y1 : ℚ) ≤ (y1 : ℚ) + (t - (x1 : ℚ)) / ((x2 : ℚ) - (x1 : ℚ)) * ((y2 : ℚ) - (y1 : ℚ)) ∧
    (y1 : ℚ) + (t - (x1 : ℚ)) / ((x2 : ℚ) - (x1 : ℚ)) * ((y2 : ℚ) - (y1 : ℚ)) ≤ (y2 : ℚ) := by
  have hden : (0 : ℚ) < (x2 : ℚ) - (x1 : ℚ) := by linarith
  have hyq : (y1 : ℚ) ≤ (y2 : ℚ) := by exact_mod_cast hy
  constructor
  · have : 0 ≤ (t - (x1 : ℚ)) / ((x2 : ℚ) - (x1 : ℚ)) * ((y2 : ℚ) - (y1 : ℚ)) :=
      mul_nonneg (div_nonneg (by linarith) hden.le) (by linarith)
    linarith
  · have hr1 : (t - (x1 : ℚ)) / ((x2 : ℚ) - (x1 : ℚ)) ≤ 1 :=
      (div_le_one hden).mpr (by linarith)
    have := mul_le_of_le_one_left (show (0 : ℚ) ≤ (y2 : ℚ) - (y1 : ℚ) by linarith) hr1
    linarith

/-- The interpolation of `walk` is monotone in the temperature inside a
window with non-decreasing duties. -/
lemma interp_mono {x1 x2 y1 y2 : ℕ} {t t' : ℚ}
    (h1 : (x1 : ℚ) < t) (h2 : t ≤ t') (h3 : t' ≤ (x2 : ℚ)) (hy : y1 ≤ y2) :
    (y1 : ℚ) + (t - (x1 : ℚ)) / ((x2 : ℚ) - (x1 : ℚ)) * ((y2 : ℚ) - (y1 : ℚ)) ≤
    (y1 : ℚ) + (t' - (x1 : ℚ)) / ((x2 : ℚ) - (x1 : ℚ)) * ((y2 : ℚ) - (y1 : ℚ)) := by
  have hden : (0 : ℚ) < (x2 : ℚ) - (x1 : ℚ) := by linarith
  have hyq : (y1 : ℚ) ≤ (y2 : ℚ) := by exact_mod_cast hy
  have hr : (t - (x1 : ℚ)) / ((x2 : ℚ) - (x1 : ℚ)) ≤ (t' - (x1 : ℚ)) / ((x2 : ℚ) - (x1 : ℚ)) :=
    (div_le_div_iff_of_pos_right hden).mpr (by linarith)
  exact add_le_add_left (mul_le_mul_of_nonneg_right hr (by linarith)) _

/-- `f64::round` is monotone as modelled. -/
lemma qround_mono {q q' : ℚ} (h : q ≤ q') : qround q ≤ qround q' :=
  Int.toNat_le_toNat (Int.floor_le_floor (by linarith))

/-- `f64::round` fixes the whole numbers produced by duties. -/
lemma qround_natCast (n : ℕ) : qround (n : ℚ) = n := by
  unfold qround
  have : ⌊(n : ℚ) + 1 / 2⌋ = (n : ℤ) := by
    rw [Int.floor_eq_iff]
    constructor
    · push_cast
      linarith
    · push_cast
      linarith
  rw [this]
  exact Int.toNat_natCast n

/-- `walk` never falls below the duty of the head point, provided duties are
pairwise non-decreasing and bounded by the fall-through value `100`. -/
lemma walk_ge_head (t : ℚ) :
    ∀ (rest : List (ℕ × ℕ)) (p : ℕ × ℕ),
      List.Chain' (fun a b : ℕ × ℕ => a.2 ≤ b.2) (p :: rest) →
      (∀ q ∈ p :: rest, q.2 ≤ 100) →
      p.2 ≤ walk t (p :: rest) := by
  intro rest
  induction rest with
  | nil =>
    intro p _ hbound
    have : walk t [p] = 100 := rfl
    rw [this]
    exact hbound p (List.mem_cons_self _ _)
  | cons p2 rest2 ih =>
    intro p1 hchain hbound
    rw [List.chain'_cons] at hchain
    obtain ⟨h12, hchain'⟩ := hchain
    have hbound' : ∀ q ∈ p2 :: rest2, q.2 ≤ 100 := fun q hq =>
      hbound q (List.mem_cons_of_mem _ hq)
    show p1.2 ≤ walk t (p1 :: p2 :: rest2)
    rw [walk]
    split_ifs with hx1 hx2 heq
    · exact le_refl _
    · exact h12
    · have hlt : (p1.1 : ℚ) < t := lt_of_not_ge (fun hge => hx1 hge)
      have hlow := (interp_bounds hlt hx2 h12).1
      calc p1.2 = qround ((p1.2 : ℚ)) := (qround_natCast _).symm
        _ ≤ _ := qround_mono hlow
    · exact le_trans h12 (ih p2 hchain' hbound')

/-- Monotonicity of `walk` in the temperature, for any window list with
pairwise non-decreasing duties bounded by `100`. -/
lemma walk_mono {t t' : ℚ} (htt : t ≤ t') :
    ∀ (l : List (ℕ × ℕ)),
      List.Chain' (fun a b : ℕ × ℕ => a.2 ≤ b.2) l →
      (∀ q ∈ l, q.2 ≤ 100) →
      walk t l ≤ walk t' l := by
  intro l
  induction l with
  | nil =>
    intro _ _
    exact le_refl _
  | cons p1 tail ih =>
    intro hchain hbound
    cases tail with
    | nil =>
      exact le_refl _
    | cons p2 rest =>
      rw [List.chain'_cons] at hchain
      obtain ⟨h12, hchain'⟩ := hchain
      have hbound' : ∀ q ∈ p2 :: rest, q.2 ≤ 100 := fun q hq =>
        hbound q (List.mem_cons_of_mem _ hq)
      by_cases hx1 : t ≤ (p1.1 : ℚ)
      · have hL : walk t (p1 :: p2 :: rest) = p1.2 := by
          rw [walk]
          simp [hx1]
        rw [hL]
        exact walk_ge_head t' (p2 :: rest) p1 (List.chain'_cons.mpr ⟨h12, hchain'⟩) hbound
      · have hx1' : ¬ t' ≤ (p1.1 : ℚ) := fun h => hx1 (le_trans htt h)
        have hlt : (p1.1 : ℚ) < t := lt_of_not_ge hx1
        by_cases hx2 : t ≤ (p2.1 : ℚ)
        · have heq : ¬ ((p2.1 : ℚ) = (p1.1 : ℚ)) := by
            intro h
            exact hx1 (h ▸ hx2)
          have hL : walk t (p1 :: p2 :: rest) =
              qround ((p1.2 : ℚ) + (t - (p1.1 : ℚ)) / ((p2.1 : ℚ) - (p1.1 : ℚ)) * ((p2.2 : ℚ) - (p1.2 : ℚ))) := by
            rw [walk]
            simp [hx1, hx2, heq]
          by_cases hx2' : t' ≤ (p2.1 : ℚ)
          · have hR : walk t' (p1 :: p2 :: rest) =
                qround ((p1.2 : ℚ) + (t' - (p1.1 : ℚ)) / ((p2.1 : ℚ) - (p1.1 : ℚ)) * ((p2.2 : ℚ) - (p1.2 : ℚ))) := by
              rw [walk]
              simp [hx1', hx2', heq]
            rw [hL, hR]
            exact qround_mono (interp_mono hlt htt hx2' h12)
          · have hR : walk t' (p1 :: p2 :: rest) = walk t' (p2 :: rest) := by
              rw [walk]
              simp [hx1', hx2']
            rw [hL, hR]
            have hup := (interp_bounds hlt hx2 h12).2
            calc qround ((p1.2 : ℚ) + (t - (p1.1 : ℚ)) / ((p2.1 : ℚ) - (p1.1 : ℚ)) * ((p2.2 : ℚ) - (p1.2 : ℚ)))
                ≤ qround ((p2.2 : ℚ)) := qround_mono hup
              _ = p2.2 := qround_natCast _
              _ ≤ walk t' (p2 :: rest) := walk_ge_head t' rest p2 hchain' hbound'
        · have hx2' : ¬ t' ≤ (p2.1 : ℚ) := fun h => hx2 (le_trans htt h)
          have hL : walk t (p1 :: p2 :: rest) = walk t (p2 :: rest) := by
            rw [walk]
            simp [hx1, hx2]
          have hR : walk t' (p1 :: p2 :: rest) = walk t' (p2 :: rest) := by
            rw [walk]
            simp [hx1', hx2']
          rw [hL, hR]
          exact ih hchain' hbound'

/-- The full curve built by `calculate_duty_from_curve` has pairwise
non-decreasing duties bounded by `100`, whenever the configured points are
monotone with duties at most `100`. -/
lemma full_curve_yChain (points : List (ℕ × ℕ))
    (hmono : List.Chain' (fun p q : ℕ × ℕ => p.1 ≤ q.1 ∧ p.2 ≤ q.2) points)
    (hbound : ∀ p ∈ points, p.2 ≤ 100) :
    List.Chain' (fun a b : ℕ × ℕ => a.2 ≤ b.2) (((0, 0) : ℕ × ℕ) :: points ++ [(100, 100)]) := by
  have hyPoints : List.Chain' (fun a b : ℕ × ℕ => a.2 ≤ b.2) points :=
    hmono.imp (fun _ _ h => h.2)
  have happ : List.Chain' (fun a b : ℕ × ℕ => a.2 ≤ b.2) (points ++ [(100, 100)]) := by
    rw [List.chain'_append]
    refine ⟨hyPoints, List.chain'_singleton _, ?_⟩
    intro x hx y hy
    have hxmem : x ∈ points := by
      obtain ⟨hne, hx'⟩ := List.mem_getLast?_eq_getLast hx
      rw [hx']
      exact List.getLast_mem hne
    have : y = ((100, 100) : ℕ × ℕ) := by
      simp only [List.head?_cons, Option.mem_def, Option.some_inj] at hy
      exact hy.symm
    rw [this]
    exact hbound x hxmem
  refine happ.cons' ?_
  intro y _
  exact Nat.zero_le _

/-- Every duty in the full curve is at most `100` under the same
hypotheses. -/
lemma full_curve_bound (points : List (ℕ × ℕ)) (hbound : ∀ p ∈ points, p.2 ≤ 100) :
    ∀ q ∈ (((0, 0) : ℕ × ℕ) :: points ++ [(100, 100)]), q.2 ≤ 100 := by
  intro q hq
  rcases List.mem_cons.mp hq with h | h
  · rw [h]
    exact Nat.zero_le _
  · rcases List.mem_append.mp h with h' | h'
    · exact hbound q h'
    · rw [List.mem_singleton.mp h']

/-- C6 counterexample: the claim quantifies over every monotonic point list,
but with the monotone points `[[50,120],[60,120]]` (duties above 100) the
evaluation *decreases* from `120` at temperature `50` to the `(100,100)`
anchor's `100` at temperature `100`. -/
theorem C6_counterexample :
    List.Chain' (fun p q : ℕ × ℕ => p.1 ≤ q.1 ∧ p.2 ≤ q.2) [(50, 120), (60, 120)] ∧
    (50 : ℤ) ≤ 100 ∧
    calculate_duty_from_curve 50 [(50, 120), (60, 120)] = 120 ∧
    calculate_duty_from_curve 100 [(50, 120), (60, 120)] = 100 := by
  refine ⟨List.chain'_cons.mpr ⟨⟨by norm_num, by norm_num⟩, List.chain'_singleton _⟩,
          by norm_num, ?_, ?_⟩
  · norm_num [calculate_duty_from_curve, walk, qround]
    rfl
  · norm_num [calculate_duty_from_curve, walk, qround]
    rfl

/-- C6 (amended): for every curve whose configured points are monotonic
(non-decreasing in both coordinates) *and whose duties do not exceed 100*
(without this bound the `(100,100)` anchor can force a decrease — see the
counterexample), the evaluated duty is non-decreasing in the temperature;
and on a tick with a previously applied duty the selected next duty moves by
at most `rate_limit_pct_per_step` in either direction, landing exactly on the
target when it is within the limit (duties at play are at most 100, which
covers the `rate_limit ≥ 100` pass-through branch). -/
theorem C6_monotone_and_rate_limit :
    (∀ (points : List (ℕ × ℕ)) (t t' : ℤ),
        List.Chain' (fun p q : ℕ × ℕ => p.1 ≤ q.1 ∧ p.2 ≤ q.2) points →
        (∀ p ∈ points, p.2 ≤ 100) →
        t ≤ t' →
        calculate_duty_from_curve t points ≤ calculate_duty_from_curve t' points) ∧
    (∀ prev tgt lim : ℕ, prev ≤ 100 → tgt ≤ 100 →
        Nat.dist prev (nextDutyStep (some prev) tgt lim) ≤ lim ∧
        (Nat.dist prev tgt ≤ lim → nextDutyStep (some prev) tgt lim = tgt)) := by
  constructor
  · intro points t t' hmono hbound htt
    unfold calculate_duty_from_curve
    exact walk_mono (by exact_mod_cast htt) _
      (full_curve_yChain points hmono hbound) (full_curve_bound points hbound)
  · intro prev tgt lim hprev htgt
    constructor
    · simp only [nextDutyStep]
      split_ifs with hlim
      · simp only [apply_rate_limit]
        split_ifs with hgt
        · simp [Nat.dist, min_def]
          split_ifs <;> omega
        · simp [Nat.dist, max_def]
          split_ifs <;> omega
      · simp [Nat.dist]
        omega
    · intro hdist
      simp only [nextDutyStep]
      split_ifs with hlim
      · simp only [apply_rate_limit]
        simp [Nat.dist] at hdist
        split_ifs with hgt
        · simp [min_def]
          omega
        · simp [max_def]
          omega
      · rfl

/-- Witness for C6 at concrete inputs: monotone in-range points
`[[40,20],[60,40]]` between temperatures `30` and `50`, and a rate-limited
step from `30` toward `50` with limit `10`. -/
theorem C6_monotone_and_rate_limit_witness :
    (List.Chain' (fun p q : ℕ × ℕ => p.1 ≤ q.1 ∧ p.2 ≤ q.2) [(40, 20), (60, 40)] ∧
     (∀ p ∈ [((40 : ℕ), (20 : ℕ)), (60, 40)], p.2 ≤ 100) ∧
     (30 : ℤ) ≤ 50 ∧
     calculate_duty_from_curve 30 [(40, 20), (60, 40)] ≤
       calculate_duty_from_curve 50 [(40, 20), (60, 40)]) ∧
    ((30 : ℕ) ≤ 100 ∧ (50 : ℕ) ≤ 100 ∧
     Nat.dist 30 (nextDutyStep (some 30) 50 10) ≤ 10) := by
  have hchain : List.Chain' (fun p q : ℕ × ℕ => p.1 ≤ q.1 ∧ p.2 ≤ q.2) [(40, 20), (60, 40)] :=
    List.chain'_cons.mpr ⟨⟨by norm_num, by norm_num⟩, List.chain'_singleton _⟩
  have hbound : ∀ p ∈ [((40 : ℕ), (20 : ℕ)), (60, 40)], p.2 ≤ 100 := by decide
  refine ⟨⟨hchain, hbound, by norm_num,
           C6_monotone_and_rate_limit.1 [(40, 20), (60, 40)] 30 50 hchain hbound (by norm_num)⟩,
          by decide, by decide,
          (C6_monotone_and_rate_limit.2 30 50 10 (by decide) (by decide)).1⟩

/-! ### C3 / C7: behavior of the power-loop blocks. -/

lemma infoPoll_last (inp : PowerInputs) (st : PowerSt) :
    (infoPoll inp st).last_tdp = st.last_tdp ∧
    (infoPoll inp st).last_thermal = st.last_thermal ∧
    (infoPoll inp st).last_tdp_apply_at = st.last_tdp_apply_at ∧
    (infoPoll inp st).last_thermal_reapply_at = st.last_thermal_reapply_at := by
  unfold infoPoll
  repeat' split
  all_goals simp_all [apply_ite PowerSt.last_tdp, apply_ite PowerSt.last_thermal,
    apply_ite PowerSt.last_tdp_apply_at, apply_ite PowerSt.last_thermal_reapply_at]

lemma infoPoll_no_info (inp : PowerInputs) (st : PowerSt) (h : inp.infoResult = none) :
    (infoPoll inp st).observed_tdp = st.observed_tdp ∧
    (infoPoll inp st).observed_thermal = st.observed_thermal ∧
    (infoPoll inp st).last_tdp_change_at = st.last_tdp_change_at := by
  unfold infoPoll
  rw [h]
  repeat' split
  all_goals simp_all [apply_ite PowerSt.observed_tdp, apply_ite PowerSt.observed_thermal,
    apply_ite PowerSt.last_tdp_change_at]

lemma powerTick_run (inp : PowerInputs) (startup : ℕ) (st : PowerSt) (profile : PowerProfile)
    (h1 : inp.ryzPresent = true) (h2 : inp.ftPresent = true)
    (h3 : inp.powerResult = some (some true)) (h4 : inp.cfgPower.ac = some profile) :
    powerTick inp startup st =
      ((thermalApply inp startup profile (tdpApply inp profile (infoPoll inp st)).1).1,
       (tdpApply inp profile (infoPoll inp st)).2 ++
         (thermalApply inp startup profile (tdpApply inp profile (infoPoll inp st)).1).2) := by
  simp [powerTick, h1, h2, h3, h4]

lemma tdpApply_unchanged_writes (inp : PowerInputs) (profile : PowerProfile) (st : PowerSt)
    (target : ℕ) (hen : fieldEnabled profile.tdp_watts = true)
    (hval : fieldValue profile.tdp_watts = some target)
    (hlast : st.last_tdp = some target) :
    (tdpApply inp profile st).2 =
      if tdpDriftCond st target && tdpQuietCond inp.now st && tdpCooldownCond inp.now st
      then [PowerWrite.setTdp target] else [] := by
  simp only [tdpApply, hen, hval, hlast, if_true]
  split_ifs with h1 h2 h3 <;> simp_all

lemma thermalApply_unchanged_writes (inp : PowerInputs) (startup : ℕ)
    (profile : PowerProfile) (st : PowerSt) (celsius : ℕ)
    (hen : fieldEnabled profile.thermal_limit_c = true)
    (hval : fieldValue profile.thermal_limit_c = some celsius)
    (hlast : st.last_thermal = some celsius) :
    (thermalApply inp startup profile st).2 =
      if inp.now - startup ≥ THERMAL_BOOT_DELAY_SECS then
        (if thermalDriftCond st celsius && thermalCooldownCond inp.now st
         then [PowerWrite.setThermal celsius] else [])
      else [] := by
  simp only [thermalApply, hen, hval, hlast, if_true]
  split_ifs with h1 h2 h3 <;> simp_all

lemma tdpApply_disabled (inp : PowerInputs) (profile : PowerProfile) (st : PowerSt)
    (hen : fieldEnabled profile.tdp_watts = false) :
    tdpApply inp profile st = ({ st with last_tdp := none }, []) := by
  simp only [tdpApply, hen, Bool.false_eq_true, if_false]
  split_ifs with h
  · rfl
  · have h2 : st.last_tdp = none := by
      cases hlt : st.last_tdp with
      | none => rfl
      | some v => rw [hlt] at h; simp at h
    cases st
    simp_all

lemma thermalApply_disabled (inp : PowerInputs) (startup : ℕ) (profile : PowerProfile)
    (st : PowerSt) (hen : fieldEnabled profile.thermal_limit_c = false) :
    thermalApply inp startup profile st = ({ st with last_thermal := none }, []) := by
  simp only [thermalApply, hen, Bool.false_eq_true, if_false]
  split_ifs with h
  · rfl
  · cases st
    simp_all

lemma tdpApply_fresh (inp : PowerInputs) (profile : PowerProfile) (st : PowerSt) (v : ℕ)
    (hen : fieldEnabled profile.tdp_watts = true)
    (hval : fieldValue profile.tdp_watts = some v)
    (hlast : st.last_tdp = none) (hok : inp.setTdpOk = true) :
    tdpApply inp profile st =
      ({ st with last_tdp := some v, last_tdp_apply_at := some inp.now },
       [PowerWrite.setTdp v]) := by
  simp [tdpApply, hen, hval, hlast, hok]

lemma thermalApply_fresh (inp : PowerInputs) (startup : ℕ) (profile : PowerProfile)
    (st : PowerSt) (c : ℕ)
    (hen : fieldEnabled profile.thermal_limit_c = true)
    (hval : fieldValue profile.thermal_limit_c = some c)
    (hlast : st.last_thermal = none) (hok : inp.setThermalOk = true)
    (hboot : inp.now - startup ≥ THERMAL_BOOT_DELAY_SECS) :
    thermalApply inp startup profile st =
      ({ st with last_thermal := some c, last_thermal_reapply_at := some inp.now },
       [PowerWrite.setThermal c]) := by
  simp [thermalApply, hen, hval, hlast, hok, hboot]

lemma tdpApply_no_drift (inp : PowerInputs) (profile : PowerProfile) (st : PowerSt)
    (target : ℕ) (hen : fieldEnabled profile.tdp_watts = true)
    (hval : fieldValue profile.tdp_watts = some target)
    (hlast : st.last_tdp = some target)
    (hdrift : tdpDriftCond st target = false) :
    tdpApply inp profile st = (st, []) := by
  simp [tdpApply, hen, hval, hlast, hdrift]

lemma thermalApply_no_drift (inp : PowerInputs) (startup : ℕ) (profile : PowerProfile)
    (st : PowerSt) (celsius : ℕ)
    (hen : fieldEnabled profile.thermal_limit_c = true)
    (hval : fieldValue profile.thermal_limit_c = some celsius)
    (hlast : st.last_thermal = some celsius)
    (hdrift : thermalDriftCond st celsius = false) :
    thermalApply inp startup profile st = (st, []) := by
  simp only [thermalApply, hen, hval, if_true]
  split_ifs <;> simp_all

/-- C3 (amended): in the power loop, an enabled TDP field with unchanged
target is written exactly when the three conditions hold — reapply cooldown
elapsed, observed value drifted outside the tolerance band, and no observed
change for the quiet window.  The thermal-limit field, however, has *no*
quiet-window condition: with an unchanged target it is written exactly when
the boot delay has passed, the observed value differs, and the thermal
cooldown has elapsed (see the counterexample for the violation of the
original claim).  Idempotence holds for both fields: the same enabled
profile applied on two consecutive ticks with no drift and within cooldown
yields exactly one write per field, on the first tick. -/
theorem C3_power_reapply_conditions :
    (∀ (inp : PowerInputs) (profile : PowerProfile) (st : PowerSt) (target : ℕ),
        fieldEnabled profile.tdp_watts = true →
        fieldValue profile.tdp_watts = some target →
        st.last_tdp = some target →
        (PowerWrite.setTdp target ∈ (tdpApply inp profile st).2 ↔
          (tdpDriftCond st target = true ∧ tdpQuietCond inp.now st = true ∧
           tdpCooldownCond inp.now st = true))) ∧
    (∀ (inp : PowerInputs) (startup : ℕ) (profile : PowerProfile) (st : PowerSt) (celsius : ℕ),
        fieldEnabled profile.thermal_limit_c = true →
        fieldValue profile.thermal_limit_c = some celsius →
        st.last_thermal = some celsius →
        (PowerWrite.setThermal celsius ∈ (thermalApply inp startup profile st).2 ↔
          (inp.now - startup ≥ THERMAL_BOOT_DELAY_SECS ∧
           thermalDriftCond st celsius = true ∧ thermalCooldownCond inp.now st = true))) ∧
    (∀ (cfg : PowerConfig) (profile : PowerProfile) (w c startup now1 now2 : ℕ) (st0 : PowerSt),
        cfg.ac = some profile →
        profile.tdp_watts = some ⟨true, w⟩ → 0 < w →
        profile.thermal_limit_c = some ⟨true, c⟩ → 0 < c →
        st0.last_tdp = none → st0.last_thermal = none →
        st0.observed_tdp = none → st0.observed_thermal = none →
        startup + THERMAL_BOOT_DELAY_SECS ≤ now1 → now1 ≤ now2 →
        now2 < now1 + REAPPLY_COOLDOWN_SECS →
        (powerTick ⟨true, true, some (some true), cfg, none, true, true, now1⟩ startup st0).2
          = [PowerWrite.setTdp w, PowerWrite.setThermal c] ∧
        (powerTick ⟨true, true, some (some true), cfg, none, true, true, now2⟩ startup
            (powerTick ⟨true, true, some (some true), cfg, none, true, true, now1⟩ startup st0).1).2
          = []) := by
  refine ⟨?_, ?_, ?_⟩
  · intro inp profile st target hen hval hlast
    rw [tdpApply_unchanged_writes inp profile st target hen hval hlast]
    constructor
    · intro hmem
      split_ifs at hmem with h
      · rw [Bool.and_eq_true, Bool.and_eq_true] at h
        exact ⟨h.1.1, h.1.2, h.2⟩
      · simp at hmem
    · rintro ⟨hd, hq, hc⟩
      simp [hd, hq, hc]
  · intro inp startup profile st celsius hen hval hlast
    rw [thermalApply_unchanged_writes inp startup profile st celsius hen hval hlast]
    constructor
    · intro hmem
      split_ifs at hmem with h1 h2
      · rw [Bool.and_eq_true] at h2
        exact ⟨h1, h2.1, h2.2⟩
      · simp at hmem
      · simp at hmem
    · rintro ⟨hb, hd, hc⟩
      simp [hb, hd, hc]
  · intro cfg profile w c startup now1 now2 st0 hac hwdef hwpos hcdef hcpos
      hlt0 hlh0 hot0 hoh0 hboot h12 _hcool
    have hen_t : fieldEnabled profile.tdp_watts = true := by
      simp [fieldEnabled, hwdef]
    have hval_t : fieldValue profile.tdp_watts = some w := by
      simp [fieldValue, hwdef, hwpos]
    have hen_c : fieldEnabled profile.thermal_limit_c = true := by
      simp [fieldEnabled, hcdef]
    have hval_c : fieldValue profile.thermal_limit_c = some c := by
      simp [fieldValue, hcdef, hcpos]
    set inp1 : PowerInputs := ⟨true, true, some (some true), cfg, none, true, true, now1⟩ with hinp1
    set inp2 : PowerInputs := ⟨true, true, some (some true), cfg, none, true, true, now2⟩ with hinp2
    set st1 := infoPoll inp1 st0 with hst1
    have hlast1 := infoPoll_last inp1 st0
    have hobs1 := infoPoll_no_info inp1 st0 rfl
    have htdp1 := tdpApply_fresh inp1 profile st1 w hen_t hval_t
      (by rw [hlast1.1, hlt0]) rfl
    have hth1 := thermalApply_fresh inp1 startup profile
      ({ st1 with last_tdp := some w, last_tdp_apply_at := some now1 }) c hen_c hval_c
      (by show st1.last_thermal = none; rw [hlast1.2.1, hlh0]) rfl
      (by show now1 - startup ≥ THERMAL_BOOT_DELAY_SECS; omega)
    have e1 : powerTick inp1 startup st0 =
        ((thermalApply inp1 startup profile (tdpApply inp1 profile st1).1).1,
         (tdpApply inp1 profile st1).2 ++
           (thermalApply inp1 startup profile (tdpApply inp1 profile st1).1).2) :=
      powerTick_run inp1 startup st0 profile rfl rfl rfl hac
    rw [htdp1] at e1
    rw [hth1] at e1
    constructor
    · rw [e1]
      simp
    · set s1 := ({ { st1 with last_tdp := some w, last_tdp_apply_at := some now1 } with
          last_thermal := some c, last_thermal_reapply_at := some now1 }) with hs1
      have hfst : (powerTick inp1 startup st0).1 = s1 := by
        rw [e1]
      rw [hfst]
      set st2 := infoPoll inp2 s1 with hst2
      have hlast2 := infoPoll_last inp2 s1
      have hobs2 := infoPoll_no_info inp2 s1 rfl
      have hs1lt : s1.last_tdp = some w := rfl
      have hs1lh : s1.last_thermal = some c := rfl
      have hst1ot : st1.observed_tdp = none := by
        rw [hst1, hobs1.1, hot0]
      have hst1oh : st1.observed_thermal = none := by
        rw [hst1, hobs1.2.1, hoh0]
      have hs1ot : s1.observed_tdp = none := hst1ot
      have hs1oh : s1.observed_thermal = none := hst1oh
      have hdrift_t : tdpDriftCond st2 w = false := by
        simp [tdpDriftCond, hst2, hobs2.1, hs1ot, hst1ot]
      have hdrift_c : thermalDriftCond st2 c = false := by
        simp [thermalDriftCond, hst2, hobs2.2.1, hs1oh, hst1oh]
      have htdp2 := tdpApply_no_drift inp2 profile st2 w hen_t hval_t
        (hlast2.1.trans hs1lt) hdrift_t
      have hth2 := thermalApply_no_drift inp2 startup profile st2 c hen_c hval_c
        (hlast2.2.1.trans hs1lh) hdrift_c
      have e2 : powerTick inp2 startup s1 =
          ((thermalApply inp2 startup profile (tdpApply inp2 profile st2).1).1,
           (tdpApply inp2 profile st2).2 ++
             (thermalApply inp2 startup profile (tdpApply inp2 profile st2).1).2) :=
        powerTick_run inp2 startup s1 profile rfl rfl rfl hac
      rw [htdp2] at e2
      rw [hth2] at e2
      rw [e2]
      simp

/-- Witness for C3 at concrete inputs: an unchanged enabled TDP target of
`10 W` with drifted observed value `20 W`, quiet for `100 s` and past the
cooldown, is rewritten; and the two-tick idempotent run writes once per
field. -/
theorem C3_power_reapply_conditions_witness :
    (fieldEnabled (some ⟨true, 10⟩) = true ∧
     fieldValue (some ⟨true, 10⟩) = some 10 ∧
     (PowerWrite.setTdp 10 ∈
        (tdpApply ⟨true, true, some (some true), ⟨none, none⟩, none, true, true, 200⟩
          ⟨some ⟨true, 10⟩, none⟩
          ⟨some 10, none, some 20, 0, none, none, none, none⟩).2 ↔
       (tdpDriftCond ⟨some 10, none, some 20, 0, none, none, none, none⟩ 10 = true ∧
        tdpQuietCond 200 ⟨some 10, none, some 20, 0, none, none, none, none⟩ = true ∧
        tdpCooldownCond 200 ⟨some 10, none, some 20, 0, none, none, none, none⟩ = true))) ∧
    ((powerTick ⟨true, true, some (some true), ⟨some ⟨some ⟨true, 15⟩, some ⟨true, 85⟩⟩, none⟩,
        none, true, true, 100⟩ 0 ⟨none, none, none, 0, none, none, none, none⟩).2
      = [PowerWrite.setTdp 15, PowerWrite.setThermal 85]) := by
  constructor
  · exact ⟨rfl, rfl,
      C3_power_reapply_conditions.1
        ⟨true, true, some (some true), ⟨none, none⟩, none, true, true, 200⟩
        ⟨some ⟨true, 10⟩, none⟩
        ⟨some 10, none, some 20, 0, none, none, none, none⟩ 10 rfl rfl rfl⟩
  · exact (C3_power_reapply_conditions.2.2
      ⟨some ⟨some ⟨true, 15⟩, some ⟨true, 85⟩⟩, none⟩
      ⟨some ⟨true, 15⟩, some ⟨true, 85⟩⟩ 15 85 0 100 101
      ⟨none, none, none, 0, none, none, none, none⟩
      rfl rfl (by decide) rfl (by decide) rfl rfl rfl rfl (by decide) (by decide)
      (by decide)).1

/-- Inputs of the C3 counterexample: an enabled, unchanged thermal limit of
`85 °C`; at time `500` the info poll observes the limit change from `85` to
`90`; at time `501` the cooldown (last reapply at `201`) elapses. -/
def c3St0 : PowerSt := ⟨none, some 85, none, 0, none, none, some 85, some 201⟩

def c3Cfg : PowerConfig := ⟨some ⟨none, some ⟨true, 85⟩⟩, none⟩

def c3Inp1 : PowerInputs := ⟨true, true, some (some true), c3Cfg, some ⟨none, some 90⟩, true, true, 500⟩

def c3Inp2 : PowerInputs := ⟨true, true, some (some true), c3Cfg, none, true, true, 501⟩

/-- C3 counterexample: the claim requires a write for an unchanged enabled
field only when the drift has been stable for the quiet window; but the
thermal block has no quiet-window check.  Concretely, the observed thermal
limit changes (85 → 90) during the tick at time `500` (which does not write,
still inside the thermal cooldown), and the very next tick at time `501` —
one second after the observed change, far less than the 60-second quiet
window — performs the hardware write. -/
theorem C3_counterexample :
    (powerTick c3Inp1 0 c3St0).2 = [] ∧
    c3St0.observed_thermal = some 85 ∧
    (powerTick c3Inp1 0 c3St0).1.observed_thermal = some 90 ∧
    (powerTick c3Inp2 0 (powerTick c3Inp1 0 c3St0).1).2 = [PowerWrite.setThermal 85] ∧
    c3Inp2.now - c3Inp1.now < QUIET_WINDOW_SECS := by
  decide

/-- C7: a power-loop tick in which a profile field is disabled performs no
hardware write for that field and resets that field's last-applied memory to
empty; a later tick re-enabling the field (with any value, in particular the
same one) therefore sees a changed target and performs exactly one write for
that field.  The thermal re-enable tick needs the boot delay to have elapsed,
which always holds once the field has been applied before, since a thermal
apply only happens after the delay. -/
theorem C7_disable_reenable_applies_once :
    ∀ (inpD inpR : PowerInputs) (startup : ℕ) (st : PowerSt)
      (profileD profileR : PowerProfile) (v c : ℕ),
      inpD.ryzPresent = true → inpD.ftPresent = true →
      inpD.powerResult = some (some true) → inpD.cfgPower.ac = some profileD →
      fieldEnabled profileD.tdp_watts = false →
      fieldEnabled profileD.thermal_limit_c = false →
      inpR.ryzPresent = true → inpR.ftPresent = true →
      inpR.powerResult = some (some true) → inpR.cfgPower.ac = some profileR →
      profileR.tdp_watts = some ⟨true, v⟩ → 0 < v →
      profileR.thermal_limit_c = some ⟨true, c⟩ → 0 < c →
      inpR.setTdpOk = true → inpR.setThermalOk = true →
      inpR.now - startup ≥ THERMAL_BOOT_DELAY_SECS →
      (powerTick inpD startup st).2 = [] ∧
      (powerTick inpD startup st).1.last_tdp = none ∧
      (powerTick inpD startup st).1.last_thermal = none ∧
      (powerTick inpR startup (powerTick inpD startup st).1).2
        = [PowerWrite.setTdp v, PowerWrite.setThermal c] ∧
      (powerTick inpR startup (powerTick inpD startup st).1).1.last_tdp = some v ∧
      (powerTick inpR startup (powerTick inpD startup st).1).1.last_thermal = some c := by
  intro inpD inpR startup st profileD profileR v c
  intro hD1 hD2 hD3 hD4 hDtdp hDth hR1 hR2 hR3 hR4 hRv hvpos hRc hcpos hRokT hRokC hRboot
  have hen_t : fieldEnabled profileR.tdp_watts = true := by
    simp [fieldEnabled, hRv]
  have hval_t : fieldValue profileR.tdp_watts = some v := by
    simp [fieldValue, hRv, hvpos]
  have hen_c : fieldEnabled profileR.thermal_limit_c = true := by
    simp [fieldEnabled, hRc]
  have hval_c : fieldValue profileR.thermal_limit_c = some c := by
    simp [fieldValue, hRc, hcpos]
  have hlastD := infoPoll_last inpD st
  have htdpD := tdpApply_disabled inpD profileD (infoPoll inpD st) hDtdp
  have hthD := thermalApply_disabled inpD startup profileD
    ({ infoPoll inpD st with last_tdp := none }) hDth
  have eD : powerTick inpD startup st =
      ((thermalApply inpD startup profileD (tdpApply inpD profileD (infoPoll inpD st)).1).1,
       (tdpApply inpD profileD (infoPoll inpD st)).2 ++
         (thermalApply inpD startup profileD (tdpApply inpD profileD (infoPoll inpD st)).1).2) :=
    powerTick_run inpD startup st profileD hD1 hD2 hD3 hD4
  rw [htdpD] at eD
  rw [hthD] at eD
  refine ⟨by rw [eD]; rfl, by rw [eD], by rw [eD], ?_⟩
  have hsD : (powerTick inpD startup st).1 =
      ({ { infoPoll inpD st with last_tdp := none } with last_thermal := none }) := by
    rw [eD]
  rw [hsD]
  set sD := ({ { infoPoll inpD st with last_tdp := none } with last_thermal := none }) with hsDdef
  have hlastR := infoPoll_last inpR sD
  have hR_lt : (infoPoll inpR sD).last_tdp = none := by
    rw [hlastR.1]
  have htdpR := tdpApply_fresh inpR profileR (infoPoll inpR sD) v hen_t hval_t hR_lt hRokT
  have hthR := thermalApply_fresh inpR startup profileR
    ({ infoPoll inpR sD with last_tdp := some v, last_tdp_apply_at := some inpR.now }) c
    hen_c hval_c
    (by show (infoPoll inpR sD).last_thermal = none; rw [hlastR.2.1]) hRokC hRboot
  have eR : powerTick inpR startup sD =
      ((thermalApply inpR startup profileR (tdpApply inpR profileR (infoPoll inpR sD)).1).1,
       (tdpApply inpR profileR (infoPoll inpR sD)).2 ++
         (thermalApply inpR startup profileR (tdpApply inpR profileR (infoPoll inpR sD)).1).2) :=
    powerTick_run inpR startup sD profileR hR1 hR2 hR3 hR4
  rw [htdpR] at eR
  rw [hthR] at eR
  refine ⟨by rw [eR]; simp, by rw [eR], by rw [eR]⟩

/-- Witness for C7 at concrete inputs: TDP `15 W` and thermal limit `85 °C`
disabled on one tick, re-enabled with the same values on the next. -/
theorem C7_disable_reenable_applies_once_witness :
    (powerTick ⟨true, true, some (some true), ⟨some ⟨some ⟨false, 15⟩, some ⟨false, 85⟩⟩, none⟩,
        none, true, true, 100⟩ 0
       ⟨some 15, some 85, none, 0, some 90, none, none, some 90⟩).2 = [] ∧
    (powerTick ⟨true, true, some (some true), ⟨some ⟨some ⟨true, 15⟩, some ⟨true, 85⟩⟩, none⟩,
        none, true, true, 101⟩ 0
       (powerTick ⟨true, true, some (some true), ⟨some ⟨some ⟨false, 15⟩, some ⟨false, 85⟩⟩, none⟩,
          none, true, true, 100⟩ 0
         ⟨some 15, some 85, none, 0, some 90, none, none, some 90⟩).1).2
      = [PowerWrite.setTdp 15, PowerWrite.setThermal 85] := by
  have h := C7_disable_reenable_applies_once
    ⟨true, true, some (some true), ⟨some ⟨some ⟨false, 15⟩, some ⟨false, 85⟩⟩, none⟩,
      none, true, true, 100⟩
    ⟨true, true, some (some true), ⟨some ⟨some ⟨true, 15⟩, some ⟨true, 85⟩⟩, none⟩,
      none, true, true, 101⟩
    0 ⟨some 15, some 85, none, 0, some 90, none, none, some 90⟩
    ⟨some ⟨false, 15⟩, some ⟨false, 85⟩⟩ ⟨some ⟨true, 15⟩, some ⟨true, 85⟩⟩ 15 85
    rfl rfl rfl rfl rfl rfl rfl rfl rfl rfl rfl (by decide) rfl (by decide) rfl rfl (by decide)
  exact ⟨h.1, h.2.2.2.1⟩

/-- C8: on a battery-loop tick with an available tool handle and both
settings configured, the desired charge limit is the configured value clamped
to `25..=100` when enabled and `100` when disabled; the desired charge rate
is the configured value when enabled and `1.0` when disabled, snapped to the
nearest `0.05` step and clamped to `0.0..=1.0`; and each desired value is
sent to hardware exactly when it differs from the last applied value (or
threshold, for the rate) or the fixed reapply interval has elapsed since that
value's last apply. -/
theorem C8_battery_desired_and_apply :
    ∀ (cfg : BatteryConfig) (now : ℕ) (limitOk rateOk : Bool) (st : BatterySt)
      (sL : SettingU8) (sR : SettingF32),
      cfg.charge_limit_max_pct = some sL →
      cfg.charge_rate_c = some sR →
      (desiredChargeLimit sL = if sL.enabled then min (max sL.value CL_MIN) CL_MAX else 100) ∧
      (desiredChargeRate sR =
        min (max (((rustRound ((if sR.enabled then sR.value else 1) * 20) : ℚ)) / 20) 0) 1) ∧
      (BatteryWrite.chargeLimit (desiredChargeLimit sL) ∈
          (batteryTick cfg true now limitOk rateOk st).2 ↔
        (needApplyLimit st (desiredChargeLimit sL) || pastReapplyLimit now st) = true) ∧
      (BatteryWrite.chargeRate (desiredChargeRate sR) cfg.charge_rate_soc_threshold_pct ∈
          (batteryTick cfg true now limitOk rateOk st).2 ↔
        (needApplyRate st (desiredChargeRate sR) cfg.charge_rate_soc_threshold_pct ||
           pastReapplyRate now st) = true) := by
  intro cfg now limitOk rateOk st sL sR hL hR
  refine ⟨by simp [desiredChargeLimit, rclamp], by simp [desiredChargeRate, rclamp], ?_, ?_⟩
  · simp only [batteryTick, hL, hR, if_true]
    split_ifs with h1 h2 h3 h4 h5 <;>
      simp_all [needApplyRate, pastReapplyRate, List.mem_append]
  · simp only [batteryTick, hL, hR, if_true]
    split_ifs with h1 h2 h3 h4 h5 <;>
      simp_all [needApplyRate, pastReapplyRate, List.mem_append]

/-- Witness for C8 at concrete inputs: enabled limit `80 %` (clamped stays
`80`), enabled rate `0.32 C` (snaps to `0.3`), fresh state (everything
applies). -/
theorem C8_battery_desired_and_apply_witness :
    (desiredChargeLimit ⟨true, 80⟩ =
       if (true : Bool) then min (max 80 CL_MIN) CL_MAX else 100) ∧
    (BatteryWrite.chargeLimit (desiredChargeLimit ⟨true, 80⟩) ∈
        (batteryTick ⟨some ⟨true, 80⟩, some ⟨true, (32 : ℚ) / 100⟩, some 60⟩ true 0 true true
          ⟨none, none, none, none, none⟩).2 ↔
      (needApplyLimit ⟨none, none, none, none, none⟩ (desiredChargeLimit ⟨true, 80⟩) ||
         pastReapplyLimit 0 ⟨none, none, none, none, none⟩) = true) := by
  have h := C8_battery_desired_and_apply
    ⟨some ⟨true, 80⟩, some ⟨true, (32 : ℚ) / 100⟩, some 60⟩ 0 true true
    ⟨none, none, none, none, none⟩ ⟨true, 80⟩ ⟨true, (32 : ℚ) / 100⟩ rfl rfl
  exact ⟨h.1, h.2.2.1⟩

/-! ### C9: the single-flight invariant. -/

/-- Program points at which a caller holds the per-key mutex. -/
def lockedPc (pc : CachePc) : Prop :=
  pc = CachePc.recheckS ∨ pc = CachePc.recheckE ∨ pc = CachePc.runF

/-- The success entry, if any, is out of TTL. -/
def staleSucc {n : ℕ} (cfg : CacheCfg n) (s : CacheSt n) : Prop :=
  ∀ p ts, s.succAt = some (p, ts) → cfg.ttl ≤ s.clock - ts

/-- The negative entry, if any, is out of TTL. -/
def staleErr {n : ℕ} (cfg : CacheCfg n) (s : CacheSt n) : Prop :=
  ∀ p ts, s.errAt = some (p, ts) → cfg.ttl ≤ s.clock - ts

/-- The inductive invariant behind the single-flight property, relative to
the run's starting clock `c0`: at most one factory execution so far; an
execution leaves a cache entry time-stamped no earlier than `c0`; the lock
discipline (a caller past `acquire` owns the mutex); a caller that passed a
recheck saw only stale entries, and entries cannot change under it while it
holds the lock. -/
structure CacheInv {n : ℕ} (cfg : CacheCfg n) (c0 : ℕ) (s : CacheSt n) : Prop where
  count_le : s.count ≤ 1
  entry_of_count : 1 ≤ s.count →
    ∃ p ts, c0 ≤ ts ∧
      (s.succAt = some (p, ts) ∨ (cfg.cacheErrors = true ∧ s.errAt = some (p, ts)))
  lock_of_locked : ∀ tid, lockedPc (s.pcs tid) → s.lock = some tid
  stale_succ : ∀ tid, s.pcs tid = CachePc.recheckE ∨ s.pcs tid = CachePc.runF →
    staleSucc cfg s
  stale_err : ∀ tid, s.pcs tid = CachePc.runF → cfg.cacheErrors = true → staleErr cfg s
  clock_ge : c0 ≤ s.clock

lemma cacheStep_clock_le {n : ℕ} {cfg : CacheCfg n} {s s' : CacheSt n}
    (h : CacheStep cfg s s') : s.clock ≤ s'.clock := by
  cases h with
  | advance d => exact Nat.le_add_right _ _
  | fastSucc tid h =>
    unfold fastSuccStep cacheServe
    repeat' split
    all_goals exact le_refl _
  | fastErr tid h =>
    unfold fastErrStep cacheServe
    repeat' split
    all_goals exact le_refl _
  | acquire tid h hl => exact le_refl _
  | recheckS tid h =>
    unfold recheckSStep cacheServe
    repeat' split
    all_goals exact le_refl _
  | recheckE tid h =>
    unfold recheckEStep cacheServe
    repeat' split
    all_goals exact le_refl _
  | runFactory tid h =>
    unfold runFactoryStep
    repeat' split
    all_goals exact le_refl _

/-- A step that only moves one caller to a non-locked, non-post-recheck
program point (and possibly records its result) preserves the invariant. -/
lemma cacheInv_benign {n : ℕ} {cfg : CacheCfg n} {c0 : ℕ} {s : CacheSt n}
    (hinv : CacheInv cfg c0 s) (tid : Fin n) (pc' : CachePc)
    (hpc : pc' = CachePc.done ∨ pc' = CachePc.fastE ∨ pc' = CachePc.awaitLock)
    (res : Fin n → Option (Bool × ℕ)) :
    CacheInv cfg c0 { s with pcs := Function.update s.pcs tid pc', results := res } := by
  refine ⟨hinv.count_le, hinv.entry_of_count, ?_, ?_, ?_, hinv.clock_ge⟩
  · intro tid' hl
    have hl' : lockedPc (Function.update s.pcs tid pc' tid') := hl
    rw [Function.update_apply] at hl'
    by_cases he : tid' = tid
    · rw [if_pos he] at hl'
      rcases hpc with rfl | rfl | rfl <;>
        rcases hl' with h | h | h <;> exact absurd h (by decide)
    · rw [if_neg he] at hl'
      exact hinv.lock_of_locked tid' hl'
  · intro tid' h
    have h' : Function.update s.pcs tid pc' tid' = CachePc.recheckE ∨
        Function.update s.pcs tid pc' tid' = CachePc.runF := h
    rw [Function.update_apply] at h'
    by_cases he : tid' = tid
    · rw [if_pos he] at h'
      rcases hpc with rfl | rfl | rfl <;>
        rcases h' with h | h <;> exact absurd h (by decide)
    · rw [if_neg he] at h'
      exact hinv.stale_succ tid' h'
  · intro tid' h hce
    have h' : Function.update s.pcs tid pc' tid' = CachePc.runF := h
    rw [Function.update_apply] at h'
    by_cases he : tid' = tid
    · rw [if_pos he] at h'
      rcases hpc with rfl | rfl | rfl <;> exact absurd h' (by decide)
    · rw [if_neg he] at h'
      exact hinv.stale_err tid' h' hce

/-- Serving from a post-lock recheck (which also releases the mutex)
preserves the invariant. -/
lemma cacheInv_serve_release {n : ℕ} {cfg : CacheCfg n} {c0 : ℕ} {s : CacheSt n}
    (hinv : CacheInv cfg c0 s) (tid : Fin n) (r : Bool × ℕ)
    (hpc : s.pcs tid = CachePc.recheckS ∨ s.pcs tid = CachePc.recheckE) :
    CacheInv cfg c0 { cacheServe s tid r with lock := none } := by
  have hlk : s.lock = some tid := by
    rcases hpc with h | h
    · exact hinv.lock_of_locked tid (Or.inl h)
    · exact hinv.lock_of_locked tid (Or.inr (Or.inl h))
  refine ⟨hinv.count_le, hinv.entry_of_count, ?_, ?_, ?_, hinv.clock_ge⟩
  · intro tid' hl
    have hl' : lockedPc (Function.update s.pcs tid CachePc.done tid') := hl
    rw [Function.update_apply] at hl'
    by_cases he : tid' = tid
    · rw [if_pos he] at hl'
      rcases hl' with h | h | h <;> exact absurd h (by decide)
    · rw [if_neg he] at hl'
      have := hinv.lock_of_locked tid' hl'
      rw [hlk] at this
      exact absurd (Option.some_injective _ this).symm he
  · intro tid' h
    have h' : Function.update s.pcs tid CachePc.done tid' = CachePc.recheckE ∨
        Function.update s.pcs tid CachePc.done tid' = CachePc.runF := h
    rw [Function.update_apply] at h'
    by_cases he : tid' = tid
    · rw [if_pos he] at h'
      rcases h' with h | h <;> exact absurd h (by decide)
    · rw [if_neg he] at h'
      exact hinv.stale_succ tid' h'
  · intro tid' h hce
    have h' : Function.update s.pcs tid CachePc.done tid' = CachePc.runF := h
    rw [Function.update_apply] at h'
    by_cases he : tid' = tid
    · rw [if_pos he] at h'
      exact absurd h' (by decide)
    · rw [if_neg he] at h'
      exact hinv.stale_err tid' h' hce

lemma locked_unique {n : ℕ} {cfg : CacheCfg n} {c0 : ℕ} {s : CacheSt n}
    (hinv : CacheInv cfg c0 s) {tid tid' : Fin n}
    (h : lockedPc (s.pcs tid)) (h' : lockedPc (s.pcs tid')) : tid = tid' := by
  have e1 := hinv.lock_of_locked tid h
  have e2 := hinv.lock_of_locked tid' h'
  rw [e1] at e2
  exact Option.some_injective _ e2

lemma runFactoryStep_clock {n : ℕ} (cfg : CacheCfg n) (s : CacheSt n) (tid : Fin n) :
    (runFactoryStep cfg s tid).clock = s.clock := by
  unfold runFactoryStep
  repeat' split
  all_goals rfl

/-- After a factory run by `tid` (which held the mutex) in a state with no
prior execution, the invariant holds again provided the new entries contain a
fresh one as the entry clause demands. -/
lemma cacheInv_after_factory {n : ℕ} {cfg : CacheCfg n} {c0 : ℕ} {s : CacheSt n}
    (hinv : CacheInv cfg c0 s) (tid : Fin n) (h : s.pcs tid = CachePc.runF)
    (hcount0 : s.count = 0) (succ' err' : Option (ℕ × ℕ)) (res' : Fin n → Option (Bool × ℕ))
    (hentry : ∃ p ts, c0 ≤ ts ∧
      (succ' = some (p, ts) ∨ (cfg.cacheErrors = true ∧ err' = some (p, ts)))) :
    CacheInv cfg c0
      { s with succAt := succ', errAt := err', lock := none,
               pcs := Function.update s.pcs tid CachePc.done,
               results := res', count := s.count + 1 } := by
  have hlocked : lockedPc (s.pcs tid) := Or.inr (Or.inr h)
  refine ⟨by show s.count + 1 ≤ 1; omega, fun _ => hentry, ?_, ?_, ?_, hinv.clock_ge⟩
  · intro tid' hl
    have hl' : lockedPc (Function.update s.pcs tid CachePc.done tid') := hl
    rw [Function.update_apply] at hl'
    by_cases he : tid' = tid
    · rw [if_pos he] at hl'
      rcases hl' with hx | hx | hx <;> exact absurd hx (by decide)
    · rw [if_neg he] at hl'
      exact absurd (locked_unique hinv hl' hlocked) he
  · intro tid' hp
    have hp' : Function.update s.pcs tid CachePc.done tid' = CachePc.recheckE ∨
        Function.update s.pcs tid CachePc.done tid' = CachePc.runF := hp
    rw [Function.update_apply] at hp'
    by_cases he : tid' = tid
    · rw [if_pos he] at hp'
      rcases hp' with hx | hx <;> exact absurd hx (by decide)
    · rw [if_neg he] at hp'
      have : lockedPc (s.pcs tid') := by
        rcases hp' with hx | hx
        · exact Or.inr (Or.inl hx)
        · exact Or.inr (Or.inr hx)
      exact absurd (locked_unique hinv this hlocked) he
  · intro tid' hp hce
    have hp' : Function.update s.pcs tid CachePc.done tid' = CachePc.runF := hp
    rw [Function.update_apply] at hp'
    by_cases he : tid' = tid
    · rw [if_pos he] at hp'
      exact absurd hp' (by decide)
    · rw [if_neg he] at hp'
      exact absurd (locked_unique hinv (Or.inr (Or.inr hp')) hlocked) he

/-- The invariant is preserved by every interleaving step, as long as the
whole run stays within one TTL of the starting clock and either error caching
is on or every factory call succeeds. -/
theorem cacheInv_preserved {n : ℕ} {cfg : CacheCfg n} {c0 : ℕ} {s s' : CacheSt n}
    (Hc : cfg.cacheErrors = true ∨ ∀ t, cfg.factoryOk t = true)
    (hstep : CacheStep cfg s s') (hclk : s'.clock < c0 + cfg.ttl)
    (hinv : CacheInv cfg c0 s) : CacheInv cfg c0 s' := by
  cases hstep with
  | advance d =>
    refine ⟨hinv.count_le, hinv.entry_of_count, hinv.lock_of_locked, ?_, ?_, ?_⟩
    · intro tid h
      intro p ts hpt
      have := hinv.stale_succ tid h p ts hpt
      show cfg.ttl ≤ s.clock + d - ts
      omega
    · intro tid h hce
      intro p ts hpt
      have := hinv.stale_err tid h hce p ts hpt
      show cfg.ttl ≤ s.clock + d - ts
      omega
    · show c0 ≤ s.clock + d
      have := hinv.clock_ge
      omega
  | fastSucc tid h =>
    unfold fastSuccStep
    split
    · split_ifs with hf
      · exact cacheInv_benign hinv tid CachePc.done (Or.inl rfl) _
      · exact cacheInv_benign hinv tid CachePc.fastE (Or.inr (Or.inl rfl)) _
    · exact cacheInv_benign hinv tid CachePc.fastE (Or.inr (Or.inl rfl)) _
  | fastErr tid h =>
    unfold fastErrStep
    split
    · split
      · split_ifs with hf
        · exact cacheInv_benign hinv tid CachePc.done (Or.inl rfl) _
        · exact cacheInv_benign hinv tid CachePc.awaitLock (Or.inr (Or.inr rfl)) _
      · exact cacheInv_benign hinv tid CachePc.awaitLock (Or.inr (Or.inr rfl)) _
    · exact cacheInv_benign hinv tid CachePc.awaitLock (Or.inr (Or.inr rfl)) _
  | acquire tid h hl =>
    refine ⟨hinv.count_le, hinv.entry_of_count, ?_, ?_, ?_, hinv.clock_ge⟩
    · intro tid' hlk
      have hlk' : lockedPc (Function.update s.pcs tid CachePc.recheckS tid') := hlk
      rw [Function.update_apply] at hlk'
      by_cases he : tid' = tid
      · show some tid = some tid'
        rw [he]
      · rw [if_neg he] at hlk'
        have := hinv.lock_of_locked tid' hlk'
        rw [hl] at this
        exact Option.noConfusion this
    · intro tid' hp
      have hp' : Function.update s.pcs tid CachePc.recheckS tid' = CachePc.recheckE ∨
          Function.update s.pcs tid CachePc.recheckS tid' = CachePc.runF := hp
      rw [Function.update_apply] at hp'
      by_cases he : tid' = tid
      · rw [if_pos he] at hp'
        rcases hp' with hx | hx <;> exact absurd hx (by decide)
      · rw [if_neg he] at hp'
        have hlp : lockedPc (s.pcs tid') := by
          rcases hp' with hx | hx
          · exact Or.inr (Or.inl hx)
          · exact Or.inr (Or.inr hx)
        have := hinv.lock_of_locked tid' hlp
        rw [hl] at this
        exact Option.noConfusion this
    · intro tid' hp hce
      have hp' : Function.update s.pcs tid CachePc.recheckS tid' = CachePc.runF := hp
      rw [Function.update_apply] at hp'
      by_cases he : tid' = tid
      · rw [if_pos he] at hp'
        exact absurd hp' (by decide)
      · rw [if_neg he] at hp'
        have := hinv.lock_of_locked tid' (Or.inr (Or.inr hp'))
        rw [hl] at this
        exact Option.noConfusion this
  | recheckS tid h =>
    unfold recheckSStep
    split
    case _ e heq =>
      split_ifs with hf
      · exact cacheInv_serve_release hinv tid (true, e.1) (Or.inl h)
      · refine ⟨hinv.count_le, hinv.entry_of_count, ?_, ?_, ?_, hinv.clock_ge⟩
        · intro tid' hlk
          have hlk' : lockedPc (Function.update s.pcs tid CachePc.recheckE tid') := hlk
          rw [Function.update_apply] at hlk'
          by_cases he : tid' = tid
          · show s.lock = some tid'
            rw [he]
            exact hinv.lock_of_locked tid (Or.inl h)
          · rw [if_neg he] at hlk'
            exact hinv.lock_of_locked tid' hlk'
        · intro tid' hp
          intro p ts hpt
          have hts : ts = e.2 := by
            rw [heq] at hpt
            cases hpt
            rfl
          have hfresh : ¬ (s.clock - e.2 < cfg.ttl) := by
            intro hcon
            exact hf (by simp [entryFresh, hcon])
          show cfg.ttl ≤ s.clock - ts
          omega
        · intro tid' hp hce
          have hp' : Function.update s.pcs tid CachePc.recheckE tid' = CachePc.runF := hp
          rw [Function.update_apply] at hp'
          by_cases he : tid' = tid
          · rw [if_pos he] at hp'
            exact absurd hp' (by decide)
          · rw [if_neg he] at hp'
            exact hinv.stale_err tid' hp' hce
    case _ heq =>
      refine ⟨hinv.count_le, hinv.entry_of_count, ?_, ?_, ?_, hinv.clock_ge⟩
      · intro tid' hlk
        have hlk' : lockedPc (Function.update s.pcs tid CachePc.recheckE tid') := hlk
        rw [Function.update_apply] at hlk'
        by_cases he : tid' = tid
        · show s.lock = some tid'
          rw [he]
          exact hinv.lock_of_locked tid (Or.inl h)
        · rw [if_neg he] at hlk'
          exact hinv.lock_of_locked tid' hlk'
      · intro tid' _
        intro p ts hpt
        rw [heq] at hpt
        exact Option.noConfusion hpt
      · intro tid' hp hce
        have hp' : Function.update s.pcs tid CachePc.recheckE tid' = CachePc.runF := hp
        rw [Function.update_apply] at hp'
        by_cases he : tid' = tid
        · rw [if_pos he] at hp'
          exact absurd hp' (by decide)
        · rw [if_neg he] at hp'
          exact hinv.stale_err tid' hp' hce
  | recheckE tid h =>
    unfold recheckEStep
    split
    case isTrue hce =>
      split
      case _ e heq =>
        split_ifs with hf
        · exact cacheInv_serve_release hinv tid (false, e.1) (Or.inr h)
        · refine ⟨hinv.count_le, hinv.entry_of_count, ?_, ?_, ?_, hinv.clock_ge⟩
          · intro tid' hlk
            have hlk' : lockedPc (Function.update s.pcs tid CachePc.runF tid') := hlk
            rw [Function.update_apply] at hlk'
            by_cases he : tid' = tid
            · show s.lock = some tid'
              rw [he]
              exact hinv.lock_of_locked tid (Or.inr (Or.inl h))
            · rw [if_neg he] at hlk'
              exact hinv.lock_of_locked tid' hlk'
          · intro tid' _
            exact hinv.stale_succ tid (Or.inl h)
          · intro tid' _ _
            intro p ts hpt
            have hts : ts = e.2 := by
              rw [heq] at hpt
              cases hpt
              rfl
            have hfresh : ¬ (s.clock - e.2 < cfg.ttl) := by
              intro hcon
              exact hf (by simp [entryFresh, hcon])
            show cfg.ttl ≤ s.clock - ts
            omega
      case _ heq =>
        refine ⟨hinv.count_le, hinv.entry_of_count, ?_, ?_, ?_, hinv.clock_ge⟩
        · intro tid' hlk
          have hlk' : lockedPc (Function.update s.pcs tid CachePc.runF tid') := hlk
          rw [Function.update_apply] at hlk'
          by_cases he : tid' = tid
          · show s.lock = some tid'
            rw [he]
            exact hinv.lock_of_locked tid (Or.inr (Or.inl h))
          · rw [if_neg he] at hlk'
            exact hinv.lock_of_locked tid' hlk'
        · intro tid' _
          exact hinv.stale_succ tid (Or.inl h)
        · intro tid' _ _
          intro p ts hpt
          rw [heq] at hpt
          exact Option.noConfusion hpt
    case isFalse hce =>
      refine ⟨hinv.count_le, hinv.entry_of_count, ?_, ?_, ?_, hinv.clock_ge⟩
      · intro tid' hlk
        have hlk' : lockedPc (Function.update s.pcs tid CachePc.runF tid') := hlk
        rw [Function.update_apply] at hlk'
        by_cases he : tid' = tid
        · show s.lock = some tid'
          rw [he]
          exact hinv.lock_of_locked tid (Or.inr (Or.inl h))
        · rw [if_neg he] at hlk'
          exact hinv.lock_of_locked tid' hlk'
      · intro tid' _
        exact hinv.stale_succ tid (Or.inl h)
      · intro tid' _ hcon
        exact absurd hcon hce
  | runFactory tid h =>
    have hck : (runFactoryStep cfg s tid).clock = s.clock := runFactoryStep_clock cfg s tid
    have hsclk : s.clock < c0 + cfg.ttl := by
      rw [hck] at hclk
      exact hclk
    have hcount0 : s.count = 0 := by
      by_contra hne
      obtain ⟨p, ts, hts, hentry⟩ := hinv.entry_of_count (Nat.one_le_iff_ne_zero.mpr hne)
      have hcg := hinv.clock_ge
      rcases hentry with hsu | ⟨hce, herr⟩
      · have := hinv.stale_succ tid (Or.inr h) p ts hsu
        omega
      · have := hinv.stale_err tid h hce p ts herr
        omega
    unfold runFactoryStep
    split_ifs with hok hce
    · exact cacheInv_after_factory hinv tid h hcount0 _ _ _
        ⟨tid.1, s.clock, hinv.clock_ge, Or.inl rfl⟩
    · exact cacheInv_after_factory hinv tid h hcount0 _ _ _
        ⟨tid.1, s.clock, hinv.clock_ge, Or.inr ⟨hce, rfl⟩⟩
    · exact absurd ((Hc.resolve_left hce) tid) hok

lemma cacheReach_clock_le {n : ℕ} {cfg : CacheCfg n} {s s' : CacheSt n}
    (h : CacheReach cfg s s') : s.clock ≤ s'.clock := by
  induction h with
  | refl => exact le_refl _
  | tail hr hstep ih => exact le_trans ih (cacheStep_clock_le hstep)

/-- The invariant holds in every state reachable within one TTL from an
initial state. -/
theorem cacheInv_reach {n : ℕ} {cfg : CacheCfg n} {s0 s : CacheSt n}
    (Hc : cfg.cacheErrors = true ∨ ∀ t, cfg.factoryOk t = true)
    (hinit : CacheInit s0) (hreach : CacheReach cfg s0 s)
    (hclk : s.clock < s0.clock + cfg.ttl) : CacheInv cfg s0.clock s := by
  obtain ⟨hpcs, hlock, hcount⟩ := hinit
  revert hclk
  induction hreach with
  | refl =>
    intro _
    refine ⟨?_, ?_, ?_, ?_, ?_, le_refl _⟩
    · rw [hcount]
      exact Nat.zero_le 1
    · intro hc
      rw [hcount] at hc
      exact absurd hc (by decide)
    · intro tid hl
      rw [hpcs tid] at hl
      rcases hl with hx | hx | hx <;> exact absurd hx (by decide)
    · intro tid hp
      rw [hpcs tid] at hp
      rcases hp with hx | hx <;> exact absurd hx (by decide)
    · intro tid hp
      rw [hpcs tid] at hp
      exact absurd hp (by decide)
  | tail hr hstep ih =>
    intro hclk
    exact cacheInv_preserved Hc hstep hclk
      (ih (lt_of_le_of_lt (cacheStep_clock_le hstep) hclk))

/-- C9 (amended): for one key, with all callers starting outside the
function, no refresh in flight (mutex free) and no execution counted, any
interleaved run that stays within one TTL of its starting instant performs at
most one factory execution — provided error caching is enabled or the factory
calls succeed (with error caching off and a failing factory, callers queued
behind the lock re-run the factory: see the counterexample).  Moreover a
failing factory run with error caching on stores the negative entry and
clears the success entry; a successful run stores the success entry and
clears the negative one; and a caller reaching the negative-cache check while
a fresh error entry exists is served that cached error. -/
theorem C9_single_flight_cache :
    (∀ (n : ℕ) (cfg : CacheCfg n) (s0 s : CacheSt n),
        (cfg.cacheErrors = true ∨ ∀ t, cfg.factoryOk t = true) →
        CacheInit s0 → CacheReach cfg s0 s → s.clock < s0.clock + cfg.ttl →
        s.count ≤ 1) ∧
    (∀ (n : ℕ) (cfg : CacheCfg n) (s : CacheSt n) (tid : Fin n),
        cfg.factoryOk tid = false → cfg.cacheErrors = true →
        (runFactoryStep cfg s tid).errAt = some (tid.1, s.clock) ∧
        (runFactoryStep cfg s tid).succAt = none) ∧
    (∀ (n : ℕ) (cfg : CacheCfg n) (s : CacheSt n) (tid : Fin n),
        cfg.factoryOk tid = true →
        (runFactoryStep cfg s tid).succAt = some (tid.1, s.clock) ∧
        (runFactoryStep cfg s tid).errAt = none) ∧
    (∀ (n : ℕ) (cfg : CacheCfg n) (s : CacheSt n) (tid : Fin n) (p ts : ℕ),
        cfg.cacheErrors = true → s.errAt = some (p, ts) → s.clock - ts < cfg.ttl →
        s.pcs tid = CachePc.fastE →
        fastErrStep cfg s tid = cacheServe s tid (false, p)) := by
  refine ⟨?_, ?_, ?_, ?_⟩
  · intro n cfg s0 s Hc hinit hreach hclk
    exact (cacheInv_reach Hc hinit hreach hclk).count_le
  · intro n cfg s tid hok hce
    constructor <;> simp [runFactoryStep, hok, hce]
  · intro n cfg s tid hok
    constructor <;> simp [runFactoryStep, hok]
  · intro n cfg s tid p ts hce herr hfresh hpc
    simp [fastErrStep, hce, herr, entryFresh, hfresh]

/-- Witness for C9 at a concrete instance: one caller, TTL `10`, error
caching on, all-successful factory; the empty reachable run has at most one
execution, and the step-level conjuncts at concrete states. -/
theorem C9_single_flight_cache_witness :
    CacheInit (⟨none, none, none, 0, fun _ => CachePc.start, fun _ => none, 0⟩ : CacheSt 1) ∧
    (⟨none, none, none, 0, fun _ => CachePc.start, fun _ => none, 0⟩ : CacheSt 1).count ≤ 1 ∧
    (runFactoryStep (⟨10, true, fun _ => false⟩ : CacheCfg 1)
        ⟨none, none, none, 3, fun _ => CachePc.runF, fun _ => none, 0⟩ 0).errAt = some (0, 3) := by
  refine ⟨⟨fun _ => rfl, rfl, rfl⟩, ?_, ?_⟩
  · exact C9_single_flight_cache.1 1 ⟨10, true, fun _ => true⟩ _ _ (Or.inl rfl)
      ⟨fun _ => rfl, rfl, rfl⟩ Relation.ReflTransGen.refl (by decide)
  · exact (C9_single_flight_cache.2.1 1 ⟨10, true, fun _ => false⟩
      ⟨none, none, none, 3, fun _ => CachePc.runF, fun _ => none, 0⟩ 0 rfl rfl).1

/-- The C9 counterexample run: two callers, error caching off, a failing
factory, TTL `100`; both callers pass the fast paths, then serialize on the
mutex and each runs the factory. -/
def ccCfg : CacheCfg 2 := ⟨100, false, fun _ => false⟩

def ccS0 : CacheSt 2 := ⟨none, none, none, 0, fun _ => CachePc.start, fun _ => none, 0⟩

def ccS1 : CacheSt 2 := fastSuccStep ccCfg ccS0 0

def ccS2 : CacheSt 2 := fastErrStep ccCfg ccS1 0

def ccS3 : CacheSt 2 := acquireStep ccS2 0

def ccS4 : CacheSt 2 := recheckSStep ccCfg ccS3 0

def ccS5 : CacheSt 2 := recheckEStep ccCfg ccS4 0

def ccS6 : CacheSt 2 := runFactoryStep ccCfg ccS5 0

def ccS7 : CacheSt 2 := fastSuccStep ccCfg ccS6 1

def ccS8 : CacheSt 2 := fastErrStep ccCfg ccS7 1

def ccS9 : CacheSt 2 := acquireStep ccS8 1

def ccS10 : CacheSt 2 := recheckSStep ccCfg ccS9 1

def ccS11 : CacheSt 2 := recheckEStep ccCfg ccS10 1

def ccS12 : CacheSt 2 := runFactoryStep ccCfg ccS11 1

/-- C9 counterexample: the claim asserts at most one underlying factory
execution for concurrent same-key requests arriving within the TTL with no
refresh in flight — with no error-caching qualifier.  With error caching off
and a failing factory, two callers arriving together (mutex free, zero
executions, all steps within the TTL) execute the factory twice: the first
failure stores nothing, so the second caller's post-lock rechecks find no
entry and it runs the factory again. -/
theorem C9_counterexample :
    CacheInit ccS0 ∧
    CacheReach ccCfg ccS0 ccS12 ∧
    ccS12.clock < ccS0.clock + ccCfg.ttl ∧
    ccS12.count = 2 := by
  refine ⟨⟨fun _ => rfl, rfl, rfl⟩, ?_, by decide, by decide⟩
  have r1 : CacheReach ccCfg ccS0 ccS1 :=
    Relation.ReflTransGen.tail Relation.ReflTransGen.refl
      (CacheStep.fastSucc ccS0 0 (by decide))
  have r2 : CacheReach ccCfg ccS0 ccS2 := r1.tail (CacheStep.fastErr ccS1 0 (by decide))
  have r3 : CacheReach ccCfg ccS0 ccS3 :=
    r2.tail (CacheStep.acquire ccS2 0 (by decide) (by decide))
  have r4 : CacheReach ccCfg ccS0 ccS4 := r3.tail (CacheStep.recheckS ccS3 0 (by decide))
  have r5 : CacheReach ccCfg ccS0 ccS5 := r4.tail (CacheStep.recheckE ccS4 0 (by decide))
  have r6 : CacheReach ccCfg ccS0 ccS6 := r5.tail (CacheStep.runFactory ccS5 0 (by decide))
  have r7 : CacheReach ccCfg ccS0 ccS7 := r6.tail (CacheStep.fastSucc ccS6 1 (by decide))
  have r8 : CacheReach ccCfg ccS0 ccS8 := r7.tail (CacheStep.fastErr ccS7 1 (by decide))
  have r9 : CacheReach ccCfg ccS0 ccS9 :=
    r8.tail (CacheStep.acquire ccS8 1 (by decide) (by decide))
  have r10 : CacheReach ccCfg ccS0 ccS10 := r9.tail (CacheStep.recheckS ccS9 1 (by decide))
  have r11 : CacheReach ccCfg ccS0 ccS11 := r10.tail (CacheStep.recheckE ccS10 1 (by decide))
  exact r11.tail (CacheStep.runFactory ccS11 1 (by decide))

end FrameworkControl
